import Mathlib

/-!
# Record / replay layer of the client-side response cache

A shallow embedding of `internal/cache/reader_replayer.go`,
`internal/cache/reader_spy.go` and `internal/cache/cache.go`, together with the
`internal.Reader` interface of `internal/reader.go`.

Modelling conventions.

* A Go `interface{}` value is a `Value`: either the nil interface or a payload
  tagged with its dynamic type.  Integers are unbounded (`Int`, `Nat`): the code
  only stores and returns them, it never computes with them.  A `float64` is
  carried as its IEEE-754 bit pattern for the same reason.
* A Go slice that occurs as a *value* (`[]byte`, `[]interface{}`) is an
  `Option (List _)`, `none` being the nil slice: the content of the slice at the
  moment the value is returned or looked at.  This is the model by content.  It
  does not follow a slice whose bytes are written again after it has been
  returned; the section "Byte slices in memory" (`Mem`) models the wrapper on
  slice headers for that case, and the section "Slices in memory" the capture
  buffers.  The two capture buffers (`ReaderSpy.data`, `ReaderReplayer.data`) are
  plain lists in the model by content: the code only takes their length, indexes,
  reslices and appends, none of which tells a nil slice from an empty one.
* A Go `error` is `Option String`: `none` is the nil error, `some m` an error with
  message `m`.
* Stateful objects are passed explicitly: every method returns its results paired
  with the state after the call.
* A call that can raise a run-time panic returns an `Outcome`.
* The decoder behind `internal.Reader` and a read function are deterministic and
  return normally: a decoder is a record of state-passing functions, a read
  function is the tree of calls it makes.
* The `gob` encoder and the `ristretto` store are external; they are parameters
  (`Deps`), nothing is assumed about them.
* Writes to standard output and to the logger (`fmt.Println`, `log.Println`) are
  not part of the model.
-/

namespace RedisCache

/-! ## Values and dynamic types -/

/-- The Go types that occur as type arguments of `popFirst` or as dynamic types of
stored values.  `other name str` is any further type a reply may carry, with the
result of `reflect.Type.Name` and of `reflect.Type.String`. -/
inductive GoType where
  | bytes
  | uint8
  | iface
  | int64
  | uint64
  | float64
  | string
  | bool
  | slice
  | int
  | other (name : String) (str : String)
  deriving DecidableEq, Repr

/-- A Go `interface{}` value, by content: a slice is the sequence it holds at the
moment the value is looked at.  A `[]byte` that shares its array with a buffer
written later is followed by `Mem.Item`. -/
inductive Value where
  | nil
  | bytes (b : Option (List Nat))
  | uint8 (b : Nat)
  | int64 (i : Int)
  | uint64 (u : Nat)
  | float64 (bits : Nat)
  | string (s : String)
  | bool (b : Bool)
  | slice (xs : Option (List Value))
  | int (i : Int)
  | other (name : String) (str : String) (payload : String)

/-- A Go `error`. -/
abbrev Error := Option String

/-- Result of a call that either returns normally or panics. -/
inductive Outcome (α : Type) where
  | ret (a : α)
  | panic (msg : String)

/-- The dynamic type of an interface value, `reflect.TypeOf`: nil for the nil
interface.  No value has dynamic type `interface{}`. -/
def reflectTypeOf : Value → Option GoType
  | .nil => none
  | .bytes _ => some .bytes
  | .uint8 _ => some .uint8
  | .int64 _ => some .int64
  | .uint64 _ => some .uint64
  | .float64 _ => some .float64
  | .string _ => some .string
  | .bool _ => some .bool
  | .slice _ => some .slice
  | .int _ => some .int
  | .other n s _ => some (.other n s)

/-- The method `reflect.Type.Name`: the name of a defined or predeclared type, the
empty string for an unnamed composite type. -/
def GoType.Name : GoType → String
  | .bytes => ""
  | .uint8 => "uint8"
  | .iface => ""
  | .int64 => "int64"
  | .uint64 => "uint64"
  | .float64 => "float64"
  | .string => "string"
  | .bool => "bool"
  | .slice => ""
  | .int => "int"
  | .other n _ => n

/-- The method `reflect.Type.String`, which the verb `%T` prints. -/
def GoType.String : GoType → String
  | .bytes => "[]uint8"
  | .uint8 => "uint8"
  | .iface => "interface \x7b\x7d"
  | .int64 => "int64"
  | .uint64 => "uint64"
  | .float64 => "float64"
  | .string => "string"
  | .bool => "bool"
  | .slice => "[]interface \x7b\x7d"
  | .int => "int"
  | .other _ s => s

/-- What `fmt` prints for the verb `%T`. -/
def fmtT (v : Value) : String :=
  match reflectTypeOf v with
  | none => "<nil>"
  | some t => t.String

/-- A type argument `T` of `popFirst`: the static type, its zero value, the
conversion of a `T` to `interface{}` and the type assertion `x.(T)` in its
comma-ok form. -/
structure TypeArg (T : Type) where
  goType : GoType
  zeroValue : T
  box : T → Value
  assert : Value → Option T

/-- Type argument `[]byte`. -/
def tyBytes : TypeArg (Option (List Nat)) :=
  ⟨.bytes, none, Value.bytes, fun x => match x with | .bytes b => some b | _ => none⟩

/-- Type argument `byte`, an alias of `uint8`. -/
def tyByte : TypeArg Nat :=
  ⟨.uint8, 0, Value.uint8, fun x => match x with | .uint8 b => some b | _ => none⟩

/-- Type argument `interface{}`: the assertion holds for every non-nil value. -/
def tyIface : TypeArg Value :=
  ⟨.iface, Value.nil, id, fun x => match x with | .nil => none | v => some v⟩

/-- Type argument `int64`. -/
def tyInt64 : TypeArg Int :=
  ⟨.int64, 0, Value.int64, fun x => match x with | .int64 i => some i | _ => none⟩

/-- Type argument `uint64`. -/
def tyUint64 : TypeArg Nat :=
  ⟨.uint64, 0, Value.uint64, fun x => match x with | .uint64 u => some u | _ => none⟩

/-- Type argument `float64`; the zero value has bit pattern 0. -/
def tyFloat64 : TypeArg Nat :=
  ⟨.float64, 0, Value.float64, fun x => match x with | .float64 f => some f | _ => none⟩

/-- Type argument `string`. -/
def tyString : TypeArg String :=
  ⟨.string, "", Value.string, fun x => match x with | .string s => some s | _ => none⟩

/-- Type argument `bool`. -/
def tyBool : TypeArg Bool :=
  ⟨.bool, false, Value.bool, fun x => match x with | .bool b => some b | _ => none⟩

/-- Type argument `[]interface{}`. -/
def tySlice : TypeArg (Option (List Value)) :=
  ⟨.slice, none, Value.slice, fun x => match x with | .slice xs => some xs | _ => none⟩

/-- Type argument `int`. -/
def tyInt : TypeArg Int :=
  ⟨.int, 0, Value.int, fun x => match x with | .int i => some i | _ => none⟩

/-! ## reader_replayer.go -/

/-- The message of the error returned on an empty sequence. -/
def exhaustedMsg : String := "no more data available in the cached value"

/-- The expression `fmt.Errorf("type mismatch in cached value, expected %s, got %T", name, v)`. -/
def mismatchMsg (name : String) (v : Value) : String :=
  "type mismatch in cached value, expected " ++ name ++ ", got " ++ fmtT v

/-- The generic `popFirst[T]`, returning `(T, error)` and the slice `*s` after the
call.  On a failed assertion the message is built from
`reflect.TypeOf(zeroValue).Name()`; when `T` is `interface{}` the zero value is the
nil interface, `reflect.TypeOf` returns nil and the method call panics. -/
def popFirst {T : Type} (ty : TypeArg T) (s : List Value) :
    Outcome (T × Error) × List Value :=
  match s with
  | [] => (.ret (ty.zeroValue, some exhaustedMsg), s)
  | first :: rest =>
    match ty.assert first with
    | none =>
      match reflectTypeOf (ty.box ty.zeroValue) with
      | none => (.panic "invalid memory address or nil pointer dereference", s)
      | some t => (.ret (ty.zeroValue, some (mismatchMsg t.Name first)), s)
    | some v => (.ret (v, none), rest)

/-- The replayer: the values still to be served. -/
structure ReaderReplayer where
  data : List Value

namespace ReaderReplayer

def Peek (r : ReaderReplayer) (_n : Int) :
    Outcome (Option (List Nat) × Error) × ReaderReplayer :=
  ((popFirst tyBytes r.data).1, ⟨(popFirst tyBytes r.data).2⟩)

def PeekReplyType (r : ReaderReplayer) : Outcome (Nat × Error) × ReaderReplayer :=
  ((popFirst tyByte r.data).1, ⟨(popFirst tyByte r.data).2⟩)

def ReadLine (r : ReaderReplayer) :
    Outcome (Option (List Nat) × Error) × ReaderReplayer :=
  ((popFirst tyBytes r.data).1, ⟨(popFirst tyBytes r.data).2⟩)

def ReadReply (r : ReaderReplayer) : Outcome (Value × Error) × ReaderReplayer :=
  ((popFirst tyIface r.data).1, ⟨(popFirst tyIface r.data).2⟩)

def ReadInt (r : ReaderReplayer) : Outcome (Int × Error) × ReaderReplayer :=
  ((popFirst tyInt64 r.data).1, ⟨(popFirst tyInt64 r.data).2⟩)

def ReadUint (r : ReaderReplayer) : Outcome (Nat × Error) × ReaderReplayer :=
  ((popFirst tyUint64 r.data).1, ⟨(popFirst tyUint64 r.data).2⟩)

def ReadFloat (r : ReaderReplayer) : Outcome (Nat × Error) × ReaderReplayer :=
  ((popFirst tyFloat64 r.data).1, ⟨(popFirst tyFloat64 r.data).2⟩)

def ReadString (r : ReaderReplayer) : Outcome (String × Error) × ReaderReplayer :=
  ((popFirst tyString r.data).1, ⟨(popFirst tyString r.data).2⟩)

def ReadBool (r : ReaderReplayer) : Outcome (Bool × Error) × ReaderReplayer :=
  ((popFirst tyBool r.data).1, ⟨(popFirst tyBool r.data).2⟩)

def ReadSlice (r : ReaderReplayer) :
    Outcome (Option (List Value) × Error) × ReaderReplayer :=
  ((popFirst tySlice r.data).1, ⟨(popFirst tySlice r.data).2⟩)

def ReadFixedArrayLen (r : ReaderReplayer) (_n : Int) : Error × ReaderReplayer :=
  (none, r)

def ReadArrayLen (r : ReaderReplayer) : Outcome (Int × Error) × ReaderReplayer :=
  ((popFirst tyInt r.data).1, ⟨(popFirst tyInt r.data).2⟩)

def ReadFixedMapLen (r : ReaderReplayer) (_n : Int) : Error × ReaderReplayer :=
  (none, r)

def ReadMapLen (r : ReaderReplayer) : Outcome (Int × Error) × ReaderReplayer :=
  ((popFirst tyInt r.data).1, ⟨(popFirst tyInt r.data).2⟩)

def DiscardNext (r : ReaderReplayer) : Error × ReaderReplayer :=
  (none, r)

end ReaderReplayer

/-! ## internal/reader.go -/

/-- The interface `internal.Reader` over a decoder with state `σ`: one field per
method, each returning its results and the decoder state after the call. -/
structure Reader (σ : Type) where
  Peek : Int → σ → (Option (List Nat) × Error) × σ
  PeekReplyType : σ → (Nat × Error) × σ
  ReadLine : σ → (Option (List Nat) × Error) × σ
  ReadReply : σ → (Value × Error) × σ
  ReadInt : σ → (Int × Error) × σ
  ReadUint : σ → (Nat × Error) × σ
  ReadFloat : σ → (Nat × Error) × σ
  ReadString : σ → (String × Error) × σ
  ReadBool : σ → (Bool × Error) × σ
  ReadSlice : σ → (Option (List Value) × Error) × σ
  ReadFixedArrayLen : Int → σ → Error × σ
  ReadArrayLen : σ → (Int × Error) × σ
  ReadFixedMapLen : Int → σ → Error × σ
  ReadMapLen : σ → (Int × Error) × σ
  DiscardNext : σ → Error × σ

/-! ## reader_spy.go -/

/-- The one-off wrapper: the state of the wrapped decoder and the contents of the
slice `*cr.data` it shares with its `ReaderSpy`. -/
structure bufferingReaderWrapper (σ : Type) where
  reader : σ
  data : List Value

namespace bufferingReaderWrapper

variable {σ : Type}

def appendData (cr : bufferingReaderWrapper σ) (dataItem : Value) :
    bufferingReaderWrapper σ :=
  ⟨cr.reader, cr.data ++ [dataItem]⟩

def Peek (R : Reader σ) (cr : bufferingReaderWrapper σ) (n : Int) :
    (Option (List Nat) × Error) × bufferingReaderWrapper σ :=
  let p := R.Peek n cr.reader
  (p.1, appendData ⟨p.2, cr.data⟩ (tyBytes.box p.1.1))

def PeekReplyType (R : Reader σ) (cr : bufferingReaderWrapper σ) :
    (Nat × Error) × bufferingReaderWrapper σ :=
  let p := R.PeekReplyType cr.reader
  (p.1, appendData ⟨p.2, cr.data⟩ (tyByte.box p.1.1))

def ReadLine (R : Reader σ) (cr : bufferingReaderWrapper σ) :
    (Option (List Nat) × Error) × bufferingReaderWrapper σ :=
  let p := R.ReadLine cr.reader
  (p.1, appendData ⟨p.2, cr.data⟩ (tyBytes.box p.1.1))

def ReadReply (R : Reader σ) (cr : bufferingReaderWrapper σ) :
    (Value × Error) × bufferingReaderWrapper σ :=
  let p := R.ReadReply cr.reader
  (p.1, appendData ⟨p.2, cr.data⟩ (tyIface.box p.1.1))

def ReadInt (R : Reader σ) (cr : bufferingReaderWrapper σ) :
    (Int × Error) × bufferingReaderWrapper σ :=
  let p := R.ReadInt cr.reader
  (p.1, appendData ⟨p.2, cr.data⟩ (tyInt64.box p.1.1))

def ReadUint (R : Reader σ) (cr : bufferingReaderWrapper σ) :
    (Nat × Error) × bufferingReaderWrapper σ :=
  let p := R.ReadUint cr.reader
  (p.1, appendData ⟨p.2, cr.data⟩ (tyUint64.box p.1.1))

def ReadFloat (R : Reader σ) (cr : bufferingReaderWrapper σ) :
    (Nat × Error) × bufferingReaderWrapper σ :=
  let p := R.ReadFloat cr.reader
  (p.1, appendData ⟨p.2, cr.data⟩ (tyFloat64.box p.1.1))

/-- The only method that appends to `*cr.data` directly instead of through
`appendData`. -/
def ReadString (R : Reader σ) (cr : bufferingReaderWrapper σ) :
    (String × Error) × bufferingReaderWrapper σ :=
  let p := R.ReadString cr.reader
  (p.1, ⟨p.2, cr.data ++ [tyString.box p.1.1]⟩)

def ReadBool (R : Reader σ) (cr : bufferingReaderWrapper σ) :
    (Bool × Error) × bufferingReaderWrapper σ :=
  let p := R.ReadBool cr.reader
  (p.1, appendData ⟨p.2, cr.data⟩ (tyBool.box p.1.1))

def ReadSlice (R : Reader σ) (cr : bufferingReaderWrapper σ) :
    (Option (List Value) × Error) × bufferingReaderWrapper σ :=
  let p := R.ReadSlice cr.reader
  (p.1, appendData ⟨p.2, cr.data⟩ (tySlice.box p.1.1))

def ReadFixedArrayLen (R : Reader σ) (cr : bufferingReaderWrapper σ) (fixedLen : Int) :
    Error × bufferingReaderWrapper σ :=
  let p := R.ReadFixedArrayLen fixedLen cr.reader
  (p.1, ⟨p.2, cr.data⟩)

def ReadArrayLen (R : Reader σ) (cr : bufferingReaderWrapper σ) :
    (Int × Error) × bufferingReaderWrapper σ :=
  let p := R.ReadArrayLen cr.reader
  (p.1, appendData ⟨p.2, cr.data⟩ (tyInt.box p.1.1))

def ReadFixedMapLen (R : Reader σ) (cr : bufferingReaderWrapper σ) (fixedLen : Int) :
    Error × bufferingReaderWrapper σ :=
  let p := R.ReadFixedMapLen fixedLen cr.reader
  (p.1, ⟨p.2, cr.data⟩)

def ReadMapLen (R : Reader σ) (cr : bufferingReaderWrapper σ) :
    (Int × Error) × bufferingReaderWrapper σ :=
  let p := R.ReadMapLen cr.reader
  (p.1, appendData ⟨p.2, cr.data⟩ (tyInt.box p.1.1))

def DiscardNext (R : Reader σ) (cr : bufferingReaderWrapper σ) :
    Error × bufferingReaderWrapper σ :=
  let p := R.DiscardNext cr.reader
  (p.1, ⟨p.2, cr.data⟩)

end bufferingReaderWrapper

/-! ## The fifteen operations, uniformly -/

/-- A call of one method of `internal.Reader`, with its argument. -/
inductive Op where
  | Peek (n : Int)
  | PeekReplyType
  | ReadLine
  | ReadReply
  | ReadInt
  | ReadUint
  | ReadFloat
  | ReadString
  | ReadBool
  | ReadSlice
  | ReadFixedArrayLen (fixedLen : Int)
  | ReadArrayLen
  | ReadFixedMapLen (fixedLen : Int)
  | ReadMapLen
  | DiscardNext
  deriving DecidableEq, Repr

/-- The result type of a value-yielding operation; `none` for the three
operations that return only an error. -/
def Op.expected : Op → Option GoType
  | .Peek _ => some .bytes
  | .PeekReplyType => some .uint8
  | .ReadLine => some .bytes
  | .ReadReply => some .iface
  | .ReadInt => some .int64
  | .ReadUint => some .uint64
  | .ReadFloat => some .float64
  | .ReadString => some .string
  | .ReadBool => some .bool
  | .ReadSlice => some .slice
  | .ReadFixedArrayLen _ => none
  | .ReadArrayLen => some .int
  | .ReadFixedMapLen _ => none
  | .ReadMapLen => some .int
  | .DiscardNext => none

/-- Whether the operation returns a value next to its error. -/
def Op.yieldsValue (op : Op) : Bool := op.expected.isSome

/-- The zero value of the result type of a value-yielding operation, as an
interface value. -/
def Op.zero : Op → Value
  | .Peek _ => tyBytes.box tyBytes.zeroValue
  | .PeekReplyType => tyByte.box tyByte.zeroValue
  | .ReadLine => tyBytes.box tyBytes.zeroValue
  | .ReadReply => tyIface.box tyIface.zeroValue
  | .ReadInt => tyInt64.box tyInt64.zeroValue
  | .ReadUint => tyUint64.box tyUint64.zeroValue
  | .ReadFloat => tyFloat64.box tyFloat64.zeroValue
  | .ReadString => tyString.box tyString.zeroValue
  | .ReadBool => tyBool.box tyBool.zeroValue
  | .ReadSlice => tySlice.box tySlice.zeroValue
  | .ReadFixedArrayLen _ => Value.nil
  | .ReadArrayLen => tyInt.box tyInt.zeroValue
  | .ReadFixedMapLen _ => Value.nil
  | .ReadMapLen => tyInt.box tyInt.zeroValue
  | .DiscardNext => Value.nil

/-- What a call returns, independently of the method: the returned value converted
to `interface{}` (`none` for the methods that return only an error) and the
error. -/
abbrev Reply := Option Value × Error

/-- A typed result `(T, error)` as a `Reply`. -/
def TypeArg.reply {T : Type} (ty : TypeArg T) (p : T × Error) : Reply :=
  (some (ty.box p.1), p.2)

/-- The result of an error-only method as a `Reply`. -/
def errReply (e : Error) : Reply := (none, e)

/-- A typed outcome as an outcome with a `Reply`. -/
def TypeArg.outcome {T : Type} (ty : TypeArg T) : Outcome (T × Error) → Outcome Reply
  | .ret p => .ret (ty.reply p)
  | .panic m => .panic m

/-- Dispatch of a call to the decoder behind the interface. -/
def Reader.call {σ : Type} (R : Reader σ) (op : Op) (s : σ) : Reply × σ :=
  match op with
  | .Peek n => (tyBytes.reply (R.Peek n s).1, (R.Peek n s).2)
  | .PeekReplyType => (tyByte.reply (R.PeekReplyType s).1, (R.PeekReplyType s).2)
  | .ReadLine => (tyBytes.reply (R.ReadLine s).1, (R.ReadLine s).2)
  | .ReadReply => (tyIface.reply (R.ReadReply s).1, (R.ReadReply s).2)
  | .ReadInt => (tyInt64.reply (R.ReadInt s).1, (R.ReadInt s).2)
  | .ReadUint => (tyUint64.reply (R.ReadUint s).1, (R.ReadUint s).2)
  | .ReadFloat => (tyFloat64.reply (R.ReadFloat s).1, (R.ReadFloat s).2)
  | .ReadString => (tyString.reply (R.ReadString s).1, (R.ReadString s).2)
  | .ReadBool => (tyBool.reply (R.ReadBool s).1, (R.ReadBool s).2)
  | .ReadSlice => (tySlice.reply (R.ReadSlice s).1, (R.ReadSlice s).2)
  | .ReadFixedArrayLen n => (errReply (R.ReadFixedArrayLen n s).1, (R.ReadFixedArrayLen n s).2)
  | .ReadArrayLen => (tyInt.reply (R.ReadArrayLen s).1, (R.ReadArrayLen s).2)
  | .ReadFixedMapLen n => (errReply (R.ReadFixedMapLen n s).1, (R.ReadFixedMapLen n s).2)
  | .ReadMapLen => (tyInt.reply (R.ReadMapLen s).1, (R.ReadMapLen s).2)
  | .DiscardNext => (errReply (R.DiscardNext s).1, (R.DiscardNext s).2)

/-- Dispatch of a call to the recording wrapper. -/
def bufferingReaderWrapper.call {σ : Type} (R : Reader σ) (op : Op)
    (cr : bufferingReaderWrapper σ) : Reply × bufferingReaderWrapper σ :=
  match op with
  | .Peek n => (tyBytes.reply (cr.Peek R n).1, (cr.Peek R n).2)
  | .PeekReplyType => (tyByte.reply (cr.PeekReplyType R).1, (cr.PeekReplyType R).2)
  | .ReadLine => (tyBytes.reply (cr.ReadLine R).1, (cr.ReadLine R).2)
  | .ReadReply => (tyIface.reply (cr.ReadReply R).1, (cr.ReadReply R).2)
  | .ReadInt => (tyInt64.reply (cr.ReadInt R).1, (cr.ReadInt R).2)
  | .ReadUint => (tyUint64.reply (cr.ReadUint R).1, (cr.ReadUint R).2)
  | .ReadFloat => (tyFloat64.reply (cr.ReadFloat R).1, (cr.ReadFloat R).2)
  | .ReadString => (tyString.reply (cr.ReadString R).1, (cr.ReadString R).2)
  | .ReadBool => (tyBool.reply (cr.ReadBool R).1, (cr.ReadBool R).2)
  | .ReadSlice => (tySlice.reply (cr.ReadSlice R).1, (cr.ReadSlice R).2)
  | .ReadFixedArrayLen n => (errReply (cr.ReadFixedArrayLen R n).1, (cr.ReadFixedArrayLen R n).2)
  | .ReadArrayLen => (tyInt.reply (cr.ReadArrayLen R).1, (cr.ReadArrayLen R).2)
  | .ReadFixedMapLen n => (errReply (cr.ReadFixedMapLen R n).1, (cr.ReadFixedMapLen R n).2)
  | .ReadMapLen => (tyInt.reply (cr.ReadMapLen R).1, (cr.ReadMapLen R).2)
  | .DiscardNext => (errReply (cr.DiscardNext R).1, (cr.DiscardNext R).2)

/-- Dispatch of a call to the replayer. -/
def ReaderReplayer.call (op : Op) (r : ReaderReplayer) : Outcome Reply × ReaderReplayer :=
  match op with
  | .Peek n => (tyBytes.outcome (r.Peek n).1, (r.Peek n).2)
  | .PeekReplyType => (tyByte.outcome r.PeekReplyType.1, r.PeekReplyType.2)
  | .ReadLine => (tyBytes.outcome r.ReadLine.1, r.ReadLine.2)
  | .ReadReply => (tyIface.outcome r.ReadReply.1, r.ReadReply.2)
  | .ReadInt => (tyInt64.outcome r.ReadInt.1, r.ReadInt.2)
  | .ReadUint => (tyUint64.outcome r.ReadUint.1, r.ReadUint.2)
  | .ReadFloat => (tyFloat64.outcome r.ReadFloat.1, r.ReadFloat.2)
  | .ReadString => (tyString.outcome r.ReadString.1, r.ReadString.2)
  | .ReadBool => (tyBool.outcome r.ReadBool.1, r.ReadBool.2)
  | .ReadSlice => (tySlice.outcome r.ReadSlice.1, r.ReadSlice.2)
  | .ReadFixedArrayLen n => (.ret (errReply (r.ReadFixedArrayLen n).1), (r.ReadFixedArrayLen n).2)
  | .ReadArrayLen => (tyInt.outcome r.ReadArrayLen.1, r.ReadArrayLen.2)
  | .ReadFixedMapLen n => (.ret (errReply (r.ReadFixedMapLen n).1), (r.ReadFixedMapLen n).2)
  | .ReadMapLen => (tyInt.outcome r.ReadMapLen.1, r.ReadMapLen.2)
  | .DiscardNext => (.ret (errReply r.DiscardNext.1), r.DiscardNext.2)

/-! ## Read functions and runs of operations -/

/-- A read function `func(rd internal.Reader) error`, as the tree of calls it
makes on the reader it is given: it either returns an error, or makes one call and
continues according to what the call returned. -/
inductive ReadFunc where
  | ret (err : Error)
  | call (op : Op) (k : Reply → ReadFunc)

/-- Run a read function on a reader whose calls are given by `step`. -/
def ReadFunc.run {ρ : Type} (step : Op → ρ → Reply × ρ) : ReadFunc → ρ → Error × ρ
  | .ret e, s => (e, s)
  | .call op k, s => (k (step op s).1).run step (step op s).2

/-- Run a list of operations, in order, on a reader whose calls are given by
`step`, collecting what each call returned. -/
def runOps {ρ : Type} (step : Op → ρ → Reply × ρ) : List Op → ρ → List Reply × ρ
  | [], s => ([], s)
  | op :: ops, s =>
    ((step op s).1 :: (runOps step ops (step op s).2).1, (runOps step ops (step op s).2).2)

/-- Run a list of operations, in order, on a replayer; a panic ends the run. -/
def runReplayer : List Op → ReaderReplayer → List (Outcome Reply) × ReaderReplayer
  | [], r => ([], r)
  | op :: ops, r =>
    match (r.call op).1 with
    | .panic m => ([.panic m], (r.call op).2)
    | .ret p => (.ret p :: (runReplayer ops (r.call op).2).1, (runReplayer ops (r.call op).2).2)

/-! ## reader_spy.go: the spy -/

/-- The spy.  Its field `cache` points to the shared cache, whose state is passed
separately; what remains is the captured data. -/
structure ReaderSpy where
  data : List Value

def ReaderSpy.wrapReader {σ : Type} (ri : ReaderSpy) (reader : σ) :
    bufferingReaderWrapper σ :=
  ⟨reader, ri.data⟩

/-! ## cache.go -/

/-- The operations of the external store `ristretto.Cache` that the cache uses,
over a store state `S`; keys are the encoded byte strings, values are interface
values. -/
structure Ristretto (S : Type) where
  Set : List Nat → Value → Int → S → Bool × S
  Get : List Nat → S → (Value × Bool) × S
  Del : List Nat → S → S
  Clear : S → S

/-- The external collaborators of the cache: `gob` encoding of a key into a fresh
buffer (the error of `Encode` and the bytes of the buffer) and the store. -/
structure Deps (S : Type) where
  gobEncode : Value → Error × List Nat
  store : Ristretto S

/-- The cache: the state of its store. -/
structure Cache (S : Type) where
  cache : S

namespace Cache

variable {S : Type}

def encodeKey (D : Deps S) (key : Value) : Option (List Nat) × Error :=
  match (D.gobEncode key).1 with
  | some err => (none, some err)
  | none => (some (D.gobEncode key).2, none)

def setKey (D : Deps S) (c : Cache S) (key value : Value) : (Bool × Error) × Cache S :=
  match encodeKey D key with
  | (_, some err) => ((false, some err), c)
  | (encodedKey, none) =>
    let p := D.store.Set (encodedKey.getD []) value 0 c.cache
    ((p.1, none), ⟨p.2⟩)

def GetKey (D : Deps S) (c : Cache S) (key : Value) :
    (Option ReaderReplayer × Bool × Error) × Cache S :=
  match encodeKey D key with
  | (_, some err) => ((none, false, some err), c)
  | (encodedKey, none) =>
    let p := D.store.Get (encodedKey.getD []) c.cache
    let cachedData := p.1.1
    let b := p.1.2
    if !b then ((none, false, none), ⟨p.2⟩)
    else
      match tySlice.assert cachedData with
      | none => ((none, false, none), ⟨p.2⟩)
      | some data => ((some ⟨data.getD []⟩, b, none), ⟨p.2⟩)

def ClearKey (D : Deps S) (c : Cache S) (key : Value) : Error × Cache S :=
  match encodeKey D key with
  | (_, some err) => (some err, c)
  | (encodedKey, none) => (none, ⟨D.store.Del (encodedKey.getD []) c.cache⟩)

def Clear (D : Deps S) (c : Cache S) : Cache S :=
  ⟨D.store.Clear c.cache⟩

end Cache

/-- The method `ReaderSpy.StoreInCache`. -/
def ReaderSpy.StoreInCache {S : Type} (D : Deps S) (ri : ReaderSpy) (c : Cache S)
    (key : Value) : (Bool × Error) × Cache S :=
  c.setKey D key (tySlice.box (some ri.data))

/-- The closure `wrappedReader` that `Cache.SpyReader` returns: it runs the read
function on a fresh wrapper around the reader it is given; the spy afterwards
holds what the wrapper appended. -/
def wrappedReader {σ : Type} (R : Reader σ) (reader : ReadFunc) (spy : ReaderSpy)
    (rd : σ) : Error × σ × ReaderSpy :=
  let p := reader.run (bufferingReaderWrapper.call R) (spy.wrapReader rd)
  (p.1, p.2.reader, ⟨p.2.data⟩)

/-- The method `Cache.SpyReader`: a spy with an empty capture and the wrapped read
function. -/
def Cache.SpyReader {S σ : Type} (_c : Cache S) (R : Reader σ) (reader : ReadFunc) :
    ReaderSpy × (ReaderSpy → σ → Error × σ × ReaderSpy) :=
  (⟨[]⟩, wrappedReader R reader)

/-! ## The mock decoder of cache_test.go -/

/-- The decoder `MockInternalReader` of the tests; it has no state.  The bytes are
those of the literals of the test file, `3.14` is given by its bit pattern, and
`Peek` is meant for a count that is not negative. -/
def MockInternalReader : Reader Unit where
  Peek := fun n s => ((some (List.replicate n.toNat 97), none), s)
  PeekReplyType := fun s => ((120, none), s)
  ReadLine := fun s => ((some [108, 105, 110, 101], none), s)
  ReadReply := fun s => ((Value.string "reply", none), s)
  ReadInt := fun s => ((42, none), s)
  ReadUint := fun s => ((42, none), s)
  ReadFloat := fun s => ((4614253070214989087, none), s)
  ReadString := fun s => (("foo", none), s)
  ReadBool := fun s => ((true, none), s)
  ReadSlice := fun s => ((some [Value.string "slice"], none), s)
  ReadFixedArrayLen := fun n s => (if n ≠ 1 then some "unexpected length" else none, s)
  ReadArrayLen := fun s => ((1, none), s)
  ReadFixedMapLen := fun n s => (if n ≠ 1 then some "unexpected length" else none, s)
  ReadMapLen := fun s => ((1, none), s)
  DiscardNext := fun s => (none, s)

/-! ## Test doubles for the external collaborators -/

/-- A synchronous in-memory store: an association list, newest entry first, that
accepts every insertion. -/
def listStore : Ristretto (List (List Nat × Value)) where
  Set := fun k v _ m => (true, (k, v) :: m.filter (fun e => e.1 ≠ k))
  Get := fun k m =>
    match m.find? (fun e => e.1 = k) with
    | some e => ((e.2, true), m)
    | none => ((Value.nil, false), m)
  Del := fun k m => m.filter (fun e => e.1 ≠ k)
  Clear := fun _ => []

/-- A key encoder: a string key is encoded by its characters, every other key is
rejected. -/
def stringKeyEncode : Value → Error × List Nat
  | .string s => (none, s.data.map Char.toNat)
  | _ => (some "gob: type not supported", [])

/-- The collaborators used in the examples. -/
def testDeps : Deps (List (List Nat × Value)) := ⟨stringKeyEncode, listStore⟩

/-- The mock decoder with a `ReadReply` that returns the nil reply and no
error. -/
def nilReplyReader : Reader Unit where
  Peek := MockInternalReader.Peek
  PeekReplyType := MockInternalReader.PeekReplyType
  ReadLine := MockInternalReader.ReadLine
  ReadReply := fun s => ((Value.nil, none), s)
  ReadInt := MockInternalReader.ReadInt
  ReadUint := MockInternalReader.ReadUint
  ReadFloat := MockInternalReader.ReadFloat
  ReadString := MockInternalReader.ReadString
  ReadBool := MockInternalReader.ReadBool
  ReadSlice := MockInternalReader.ReadSlice
  ReadFixedArrayLen := MockInternalReader.ReadFixedArrayLen
  ReadArrayLen := MockInternalReader.ReadArrayLen
  ReadFixedMapLen := MockInternalReader.ReadFixedMapLen
  ReadMapLen := MockInternalReader.ReadMapLen
  DiscardNext := MockInternalReader.DiscardNext

/-- A message contains a text. -/
def Mentions (msg text : String) : Prop := text.data <:+: msg.data

/-- What makes a `TypeArg` the description of a concrete Go type: converting a
value to `interface{}` gives the type as dynamic type, the assertion gives the
value back, and the assertion fails exactly on the values of another dynamic
type. -/
def TypeArg.Concrete {T : Type} (ty : TypeArg T) : Prop :=
  (∀ v, reflectTypeOf (ty.box v) = some ty.goType)
  ∧ (∀ v, ty.assert (ty.box v) = some v)
  ∧ (∀ x, reflectTypeOf x ≠ some ty.goType → ty.assert x = none)
  ∧ (∀ x v, ty.assert x = some v → x = ty.box v)

/-- The fifteen operations in the order of the interface, with the arguments the
tests use. -/
def allOps : List Op :=
  [.Peek 5, .PeekReplyType, .ReadLine, .ReadReply, .ReadInt, .ReadUint, .ReadFloat,
   .ReadString, .ReadBool, .ReadSlice, .ReadFixedArrayLen 1, .ReadArrayLen,
   .ReadFixedMapLen 1, .ReadMapLen, .DiscardNext]

/-- A store that records in its state that it has been contacted: every operation
sets the state to `true`. -/
def tripStore : Ristretto Bool where
  Set := fun _ _ _ _ => (true, true)
  Get := fun _ _ => ((Value.nil, false), true)
  Del := fun _ _ => true
  Clear := fun _ => true

/-- The key `make(chan int)` of the tests, which `gob` cannot encode. -/
def chanKey : Value := Value.other "" "chan int" "0xc000012345"

/-- The in-memory store holding, under the encoded key "k", the capture of one
`ReadString` that returned "foo". -/
def cacheWithFoo : Cache (List (List Nat × Value)) :=
  ⟨[([107], Value.slice (some [Value.string "foo"]))]⟩

/-- The number of value-yielding calls of a run on the replayer that returned
without error; the outcomes are those of the run, in order. -/
def successes : List Op → List (Outcome Reply) → Nat
  | op :: ops, Outcome.ret (_, none) :: os =>
    (if op.yieldsValue then 1 else 0) + successes ops os
  | _ :: ops, _ :: os => successes ops os
  | _, _ => 0

/-! ## Slices in memory

The capture buffers as Go holds them: a slice is a header that points into a
backing array, and headers copied from one another share the array.  This is the
level at which "stored values are not changed in place" is a statement; the list
model above is what the headers denote (`Heap.view`). -/

/-- A slice header: the backing array, the offset of the first element in it, the
length and the capacity. -/
structure SliceHdr where
  arr : Nat
  off : Nat
  len : Nat
  cap : Nat

/-- The backing arrays allocated so far, by index.  An array keeps its length. -/
abbrev Heap := List (List Value)

/-- The backing array with index `a`. -/
def Heap.array (h : Heap) (a : Nat) : List Value := h[a]?.getD []

/-- The sequence a header denotes: the elements `s[0]`, ..., `s[len(s)-1]`. -/
def Heap.view (h : Heap) (s : SliceHdr) : List Value :=
  ((h.array s.arr).drop s.off).take s.len

/-- A header of the heap: its array is allocated and holds its capacity. -/
def SliceHdr.Valid (h : Heap) (s : SliceHdr) : Prop :=
  s.arr < h.length ∧ s.len ≤ s.cap ∧ s.off + s.cap ≤ (h.array s.arr).length

/-- The expression `make([]interface{}, 0)` of `Cache.SpyReader`. -/
def goMake0 (h : Heap) : Heap × SliceHdr :=
  (h ++ [[]], ⟨h.length, 0, 0, 0⟩)

/-- The built-in `append(s, v)`: within capacity it writes `v` behind the last
element, in place; otherwise it allocates an array that holds the elements, `v`
and `spare` free slots (how many is up to the run time). -/
def goAppend (spare : Nat) (h : Heap) (s : SliceHdr) (v : Value) : Heap × SliceHdr :=
  if s.len < s.cap then
    (h.set s.arr ((h.array s.arr).set (s.off + s.len) v), ⟨s.arr, s.off, s.len + 1, s.cap⟩)
  else
    (h ++ [h.view s ++ v :: List.replicate spare Value.nil],
      ⟨h.length, 0, s.len + 1, s.len + 1 + spare⟩)

/-- The slice expression `s[1:]`. -/
def goTail (s : SliceHdr) : SliceHdr :=
  ⟨s.arr, s.off + 1, s.len - 1, s.cap - 1⟩

/-- The statement `*cr.data = append(*cr.data, dataItem)` of `appendData` and of
`ReadString`, repeated for the values `vs` in order; `grow` is the number of free
slots the run time adds when it reallocates a slice of a given length. -/
def appendAllH (grow : Nat → Nat) : Heap → SliceHdr → List Value → Heap × SliceHdr
  | h, s, [] => (h, s)
  | h, s, v :: vs =>
    appendAllH grow (goAppend (grow s.len) h s v).1 (goAppend (grow s.len) h s v).2 vs

/-- The generic `popFirst[T]` on a slice in memory: it returns `(T, error)`, the
heap and the header `*s` after the call.  It reads `(*s)[0]` and assigns
`(*s)[1:]` to `*s`; it has no assignment to an element. -/
def popFirstH {T : Type} (ty : TypeArg T) (h : Heap) (s : SliceHdr) :
    Outcome (T × Error) × Heap × SliceHdr :=
  if s.len = 0 then (.ret (ty.zeroValue, some exhaustedMsg), h, s)
  else
    match ty.assert ((h.array s.arr).getD s.off Value.nil) with
    | none =>
      match reflectTypeOf (ty.box ty.zeroValue) with
      | none => (.panic "invalid memory address or nil pointer dereference", h, s)
      | some t =>
        (.ret (ty.zeroValue,
          some (mismatchMsg t.Name ((h.array s.arr).getD s.off Value.nil))), h, s)
    | some v => (.ret (v, none), h, goTail s)

/-- A header `st` is out of reach of the appends through the header `r`: its array
is allocated, and when it shares the array of `r` it ends where `r` ends or
before. -/
def Covers (h : Heap) (r st : SliceHdr) : Prop :=
  st.arr < h.length ∧ (st.arr = r.arr → st.off + st.len ≤ r.off + r.len)

/-- The replies of the calls a read function makes, in call order. -/
def ReadFunc.trace {ρ : Type} (step : Op → ρ → Reply × ρ) : ReadFunc → ρ → List Reply
  | .ret _, _ => []
  | .call op k, s => (step op s).1 :: (k (step op s).1).trace step (step op s).2

/-- Successive invocations of the wrapped read function of one spy, one for each
decoder state of the list. -/
def invokeAll {σ : Type} (R : Reader σ) (reader : ReadFunc) :
    List σ → ReaderSpy → ReaderSpy
  | [], spy => spy
  | rd :: rds, spy => invokeAll R reader rds (wrappedReader R reader spy rd).2.2

/-- A decoder on which every call fails: each method returns the zero value of its
result type and the error "EOF". -/
def failingReader : Reader Unit where
  Peek := fun _ s => ((none, some "EOF"), s)
  PeekReplyType := fun s => ((0, some "EOF"), s)
  ReadLine := fun s => ((none, some "EOF"), s)
  ReadReply := fun s => ((Value.nil, some "EOF"), s)
  ReadInt := fun s => ((0, some "EOF"), s)
  ReadUint := fun s => ((0, some "EOF"), s)
  ReadFloat := fun s => ((0, some "EOF"), s)
  ReadString := fun s => (("", some "EOF"), s)
  ReadBool := fun s => ((false, some "EOF"), s)
  ReadSlice := fun s => ((none, some "EOF"), s)
  ReadFixedArrayLen := fun _ s => (some "EOF", s)
  ReadArrayLen := fun s => ((0, some "EOF"), s)
  ReadFixedMapLen := fun _ s => (some "EOF", s)
  ReadMapLen := fun s => ((0, some "EOF"), s)
  DiscardNext := fun s => (some "EOF", s)

/-- A store with buffered insertions: the state is the visible entries and the
insertions still in the buffer.  `Set` accepts the entry into the buffer; `Get`,
`Del` and `Clear` act on the visible entries; each operation ends by making
visible what was in the buffer when it began.  A deletion does not reach an
insertion that is still in the buffer. -/
def bufferedStore :
    Ristretto (List (List Nat × Value) × List (List Nat × Value)) where
  Set := fun k v _ s => (true, (s.2 ++ s.1, [(k, v)]))
  Get := fun k s =>
    match s.1.find? (fun e => e.1 = k) with
    | some e => ((e.2, true), (s.2 ++ s.1, []))
    | none => ((Value.nil, false), (s.2 ++ s.1, []))
  Del := fun k s => (s.2 ++ s.1.filter (fun e => e.1 ≠ k), [])
  Clear := fun s => (s.2, [])

/-- The string-key encoder with the store with buffered insertions. -/
def bufferedDeps : Deps (List (List Nat × Value) × List (List Nat × Value)) :=
  ⟨stringKeyEncode, bufferedStore⟩

/-! ## Byte slices in memory

The wrapper on `[]byte` results as Go holds them.  A `[]byte` is a header into a
byte array; `appendData` converts the header to `interface{}` and appends it, it
does not copy the bytes.  A decoder that hands out a buffer and fills it again on
a later call changes what a header captured before reads as.  The model by
content above takes a returned slice at its content when it is returned; this
section is the level at which the difference shows. -/

namespace Mem

/-- The byte arrays allocated so far, by index. -/
abbrev ByteHeap := List (List Nat)

/-- The bytes a header denotes in a byte heap. -/
def ByteHeap.bytes (bh : ByteHeap) (s : SliceHdr) : List Nat :=
  ((bh[s.arr]?.getD []).drop s.off).take s.len

/-- What a `[]byte` reads as: nil for the nil slice, the denoted bytes for a
header. -/
def readBytes (bh : ByteHeap) : Option SliceHdr → Option (List Nat)
  | none => none
  | some hdr => some (bh.bytes hdr)

/-- An element of a capture as Go holds it: a `[]byte` is held by its header, any
other value by its content. -/
inductive Item where
  | bytes (b : Option SliceHdr)
  | plain (v : Value)

/-- What an element of a capture reads as in a byte heap. -/
def Item.read (bh : ByteHeap) : Item → Value
  | .bytes b => Value.bytes (readBytes bh b)
  | .plain v => v

/-- The methods of `internal.Reader` that return `[]byte`, on a decoder that owns
the byte arrays `heap`. -/
structure Reader (σ : Type) where
  heap : σ → ByteHeap
  Peek : Int → σ → (Option SliceHdr × Error) × σ
  ReadLine : σ → (Option SliceHdr × Error) × σ

/-- The wrapper: the state of the wrapped decoder and the elements of `*cr.data`. -/
structure bufferingReaderWrapper (σ : Type) where
  reader : σ
  data : List Item

variable {σ : Type}

def appendData (cr : bufferingReaderWrapper σ) (dataItem : Item) :
    bufferingReaderWrapper σ :=
  ⟨cr.reader, cr.data ++ [dataItem]⟩

def Peek (R : Reader σ) (cr : bufferingReaderWrapper σ) (n : Int) :
    (Option SliceHdr × Error) × bufferingReaderWrapper σ :=
  let p := R.Peek n cr.reader
  (p.1, appendData ⟨p.2, cr.data⟩ (Item.bytes p.1.1))

def ReadLine (R : Reader σ) (cr : bufferingReaderWrapper σ) :
    (Option SliceHdr × Error) × bufferingReaderWrapper σ :=
  let p := R.ReadLine cr.reader
  (p.1, appendData ⟨p.2, cr.data⟩ (Item.bytes p.1.1))

/-- What the capture reads as in the present state of the decoder: the sequence
that `StoreInCache` hands to the store and that a replayer serves. -/
def capture (R : Reader σ) (cr : bufferingReaderWrapper σ) : List Value :=
  cr.data.map (Item.read (R.heap cr.reader))

/-- A decoder with one buffer, array 0 of its heap, in the way of a buffered
reader: the state is the buffer and the chunks of input still to come; `Peek` and
`ReadLine` copy the next chunk into the buffer and return the buffer up to the
length of the chunk. -/
def reusingReader : Reader (List Nat × List (List Nat)) where
  heap := fun s => [s.1]
  Peek := fun _ s =>
    match s.2 with
    | [] => ((none, some "EOF"), s)
    | c :: rest => ((some ⟨0, 0, c.length, s.1.length⟩, none), (c ++ s.1.drop c.length, rest))
  ReadLine := fun s =>
    match s.2 with
    | [] => ((none, some "EOF"), s)
    | c :: rest => ((some ⟨0, 0, c.length, s.1.length⟩, none), (c ++ s.1.drop c.length, rest))

/-- The decoder with an empty two-byte buffer and the input "ab", "xy", behind a
wrapper with an empty capture. -/
def reuseStart : bufferingReaderWrapper (List Nat × List (List Nat)) :=
  ⟨([0, 0], [[97, 98], [120, 121]]), []⟩

end Mem

/-! ## Lemmas on `popFirst` and on the replayer -/

/-- The nine type arguments other than `interface{}` are concrete. -/
theorem typeArgs_concrete :
    tyBytes.Concrete ∧ tyByte.Concrete ∧ tyInt64.Concrete ∧ tyUint64.Concrete
    ∧ tyFloat64.Concrete ∧ tyString.Concrete ∧ tyBool.Concrete ∧ tySlice.Concrete
    ∧ tyInt.Concrete := by
  refine ⟨?_, ?_, ?_, ?_, ?_, ?_, ?_, ?_, ?_⟩ <;>
    refine ⟨fun _ => rfl, fun _ => rfl, fun x hx => ?_, fun x v hx => ?_⟩ <;>
    cases x <;>
    simp_all [reflectTypeOf, tyBytes, tyByte, tyInt64, tyUint64, tyFloat64, tyString,
      tyBool, tySlice, tyInt]

/-- The type argument `interface{}`: the assertion fails on the nil interface only
and returns every other value as it is. -/
theorem tyIface_assert (x : Value) :
    (tyIface.assert x = none ↔ x = Value.nil)
    ∧ (x ≠ Value.nil → tyIface.assert x = some x) := by
  cases x <;> simp [tyIface]

theorem popFirst_nil {T : Type} (ty : TypeArg T) :
    popFirst ty [] = (.ret (ty.zeroValue, some exhaustedMsg), []) := rfl

theorem popFirst_cons_some {T : Type} (ty : TypeArg T) (x : Value) (rest : List Value)
    (v : T) (h : ty.assert x = some v) :
    popFirst ty (x :: rest) = (.ret (v, none), rest) := by
  simp [popFirst, h]

theorem popFirst_cons_none {T : Type} (ty : TypeArg T) (x : Value) (rest : List Value)
    (t : GoType) (h : ty.assert x = none)
    (hz : reflectTypeOf (ty.box ty.zeroValue) = some t) :
    popFirst ty (x :: rest)
      = (.ret (ty.zeroValue, some (mismatchMsg t.Name x)), x :: rest) := by
  simp [popFirst, h, hz]

/-- A structural operation on the replayer returns no error and changes nothing. -/
theorem call_structural (op : Op) (r : ReaderReplayer) (h : op.expected = none) :
    r.call op = (.ret (none, none), r) := by
  cases op <;> simp [Op.expected] at h <;> rfl

/-- A value-yielding operation on an exhausted replayer. -/
theorem call_nil (op : Op) (h : op.yieldsValue = true) :
    ReaderReplayer.call op ⟨[]⟩ = (.ret (some op.zero, some exhaustedMsg), ⟨[]⟩) := by
  cases op <;> simp [Op.yieldsValue, Op.expected] at h <;> rfl

/-- A typed operation on a head of its own type returns the head and advances. -/
theorem call_match (op : Op) (t : GoType) (x : Value) (rest : List Value)
    (h : op.expected = some t) (hx : reflectTypeOf x = some t) :
    ReaderReplayer.call op ⟨x :: rest⟩ = (.ret (some x, none), ⟨rest⟩) := by
  cases op <;> simp [Op.expected] at h <;> subst h <;>
    cases x <;> simp [reflectTypeOf] at hx <;> rfl

/-- A typed operation other than `ReadReply` on a head of another type returns
the zero value and the mismatch error, and does not advance. -/
theorem call_mismatch (op : Op) (t : GoType) (x : Value) (rest : List Value)
    (h : op.expected = some t) (hne : op ≠ Op.ReadReply)
    (hx : reflectTypeOf x ≠ some t) :
    ReaderReplayer.call op ⟨x :: rest⟩
      = (.ret (some op.zero, some (mismatchMsg t.Name x)), ⟨x :: rest⟩) := by
  cases op <;> simp [Op.expected] at h <;> subst h <;>
    first
    | exact absurd rfl hne
    | (cases x <;> simp [reflectTypeOf] at hx <;> rfl)

/-- The operation `ReadReply` on a non-nil head returns the head and advances. -/
theorem call_reply_some (x : Value) (rest : List Value) (hx : x ≠ Value.nil) :
    ReaderReplayer.call Op.ReadReply ⟨x :: rest⟩ = (.ret (some x, none), ⟨rest⟩) := by
  cases x <;> first | exact absurd rfl hx | rfl

/-- The operation `ReadReply` on a nil head panics. -/
theorem call_reply_nil (rest : List Value) :
    ReaderReplayer.call Op.ReadReply ⟨Value.nil :: rest⟩
      = (.panic "invalid memory address or nil pointer dereference", ⟨Value.nil :: rest⟩) :=
  rfl

/-- The mismatch message contains the words "type mismatch". -/
theorem mismatchMsg_mentions (name : String) (v : Value) :
    Mentions (mismatchMsg name v) "type mismatch" := by
  refine ⟨[], (" in cached value, expected " ++ name ++ ", got " ++ fmtT v).data, ?_⟩
  simp only [mismatchMsg, String.data_append, List.nil_append, List.append_assoc]
  rfl

/-! ## Lemmas on the recording wrapper -/

section Wrapper

variable {σ : Type}

/-- The wrapper returns what the decoder returns. -/
theorem wrapper_call_reply (R : Reader σ) (op : Op) (cr : bufferingReaderWrapper σ) :
    (bufferingReaderWrapper.call R op cr).1 = (R.call op cr.reader).1 := by
  cases op <;> rfl

/-- The wrapper leaves the decoder in the state the call leaves it in. -/
theorem wrapper_call_reader (R : Reader σ) (op : Op) (cr : bufferingReaderWrapper σ) :
    (bufferingReaderWrapper.call R op cr).2.reader = (R.call op cr.reader).2 := by
  cases op <;> rfl

/-- The wrapper appends the returned value, if the operation returns one. -/
theorem wrapper_call_data (R : Reader σ) (op : Op) (cr : bufferingReaderWrapper σ) :
    (bufferingReaderWrapper.call R op cr).2.data
      = cr.data ++ (R.call op cr.reader).1.1.toList := by
  cases op <;> simp [bufferingReaderWrapper.call, Reader.call, TypeArg.reply, errReply,
    bufferingReaderWrapper.Peek, bufferingReaderWrapper.PeekReplyType,
    bufferingReaderWrapper.ReadLine, bufferingReaderWrapper.ReadReply,
    bufferingReaderWrapper.ReadInt, bufferingReaderWrapper.ReadUint,
    bufferingReaderWrapper.ReadFloat, bufferingReaderWrapper.ReadString,
    bufferingReaderWrapper.ReadBool, bufferingReaderWrapper.ReadSlice,
    bufferingReaderWrapper.ReadFixedArrayLen, bufferingReaderWrapper.ReadArrayLen,
    bufferingReaderWrapper.ReadFixedMapLen, bufferingReaderWrapper.ReadMapLen,
    bufferingReaderWrapper.DiscardNext, bufferingReaderWrapper.appendData]

/-- A successful call whose result is not the nil reply is served back by the
replayer from the value the wrapper appended for it. -/
theorem replay_single (R : Reader σ) (op : Op) (s : σ) (rest : List Value)
    (herr : (R.call op s).1.2 = none) (hnil : (R.call op s).1.1 ≠ some Value.nil) :
    ReaderReplayer.call op ⟨(R.call op s).1.1.toList ++ rest⟩
      = (.ret (R.call op s).1, ⟨rest⟩) := by
  cases op
  case ReadReply =>
    have h1 : (R.call Op.ReadReply s).1 = (some (R.ReadReply s).1.1, (R.ReadReply s).1.2) := rfl
    rw [h1] at herr hnil ⊢
    simp only at herr
    have h2 : (R.ReadReply s).1.1 ≠ Value.nil := fun h => hnil (by rw [h])
    simp only [Option.toList, List.cons_append, List.nil_append]
    rw [call_reply_some _ _ h2, herr]
  case ReadFixedArrayLen n =>
    have h1 : (R.call (Op.ReadFixedArrayLen n) s).1 = (none, (R.ReadFixedArrayLen n s).1) := rfl
    rw [h1] at herr ⊢
    simp only at herr
    rw [herr]; rfl
  case ReadFixedMapLen n =>
    have h1 : (R.call (Op.ReadFixedMapLen n) s).1 = (none, (R.ReadFixedMapLen n s).1) := rfl
    rw [h1] at herr ⊢
    simp only at herr
    rw [herr]; rfl
  case DiscardNext =>
    have h1 : (R.call Op.DiscardNext s).1 = (none, (R.DiscardNext s).1) := rfl
    rw [h1] at herr ⊢
    simp only at herr
    rw [herr]; rfl
  all_goals
    simp only [Reader.call, TypeArg.reply] at herr ⊢
    simp only [Option.toList, List.cons_append, List.nil_append]
    rw [herr]
    rfl

/-- The capture after a run of operations through the wrapper: the capture before,
followed by the returned values in call order. -/
theorem runOps_wrapper_data (R : Reader σ) (ops : List Op) (cr : bufferingReaderWrapper σ) :
    (runOps (bufferingReaderWrapper.call R) ops cr).2.data
      = cr.data ++ ((runOps (bufferingReaderWrapper.call R) ops cr).1.map
          (fun p => p.1.toList)).flatten := by
  induction ops generalizing cr with
  | nil => simp [runOps]
  | cons op ops ih =>
    simp only [runOps, List.map_cons, List.flatten_cons]
    rw [ih, wrapper_call_data, wrapper_call_reply, List.append_assoc]

/-- Replaying, in order, the values captured from successful calls with non-nil
results gives back the same replies and uses up exactly those values. -/
theorem runReplayer_captured (R : Reader σ) (ops : List Op) (cr : bufferingReaderWrapper σ)
    (rest : List Value)
    (hok : ∀ p ∈ (runOps (bufferingReaderWrapper.call R) ops cr).1,
      p.2 = none ∧ p.1 ≠ some Value.nil) :
    runReplayer ops
        ⟨((runOps (bufferingReaderWrapper.call R) ops cr).1.map
          (fun p => p.1.toList)).flatten ++ rest⟩
      = ((runOps (bufferingReaderWrapper.call R) ops cr).1.map Outcome.ret, ⟨rest⟩) := by
  induction ops generalizing cr with
  | nil => simp [runOps, runReplayer]
  | cons op ops ih =>
    simp only [runOps, List.map_cons, List.flatten_cons, List.append_assoc] at hok ⊢
    have h0 := hok _ (List.mem_cons_self _ _)
    rw [wrapper_call_reply] at h0 ⊢
    have hstep := replay_single R op cr.reader
      (((runOps (bufferingReaderWrapper.call R) ops
          (bufferingReaderWrapper.call R op cr).2).1.map (fun p => p.1.toList)).flatten ++ rest)
      h0.1 h0.2
    have htail := ih (bufferingReaderWrapper.call R op cr).2
      (fun p hp => hok p (List.mem_cons_of_mem _ hp))
    simp only [runReplayer, hstep, htail]

end Wrapper

/-! ## Further lemmas on runs -/

/-- The three ways a value-yielding operation can end on a non-empty sequence:
it returns the head and advances, or it returns an error and stays, or it panics
and stays. -/
theorem call_cons_cases (op : Op) (x : Value) (rest : List Value)
    (h : op.yieldsValue = true) :
    ReaderReplayer.call op ⟨x :: rest⟩ = (.ret (some x, none), ⟨rest⟩)
    ∨ (∃ m, ReaderReplayer.call op ⟨x :: rest⟩ = (.ret (some op.zero, some m), ⟨x :: rest⟩))
    ∨ (∃ m, ReaderReplayer.call op ⟨x :: rest⟩ = (.panic m, ⟨x :: rest⟩)) := by
  obtain ⟨t, ht⟩ := Option.isSome_iff_exists.mp h
  by_cases hr : op = Op.ReadReply
  · subst hr
    by_cases hx : x = Value.nil
    · subst hx
      exact Or.inr (Or.inr ⟨_, call_reply_nil rest⟩)
    · exact Or.inl (call_reply_some x rest hx)
  · by_cases hx : reflectTypeOf x = some t
    · exact Or.inl (call_match op t x rest ht hx)
    · exact Or.inr (Or.inl ⟨_, call_mismatch op t x rest ht hr hx⟩)

/-- When every call of a run on the replayer returns without error, the run has
consumed one value per value-yielding operation, and there were enough values. -/
theorem runReplayer_ok_data (ops : List Op) (r : ReaderReplayer)
    (hok : ∀ o ∈ (runReplayer ops r).1, ∃ v, o = Outcome.ret (v, none)) :
    (ops.filter Op.yieldsValue).length ≤ r.data.length
    ∧ (runReplayer ops r).2.data = r.data.drop (ops.filter Op.yieldsValue).length := by
  induction ops generalizing r with
  | nil => simp [runReplayer]
  | cons op ops ih =>
    cases hy : op.yieldsValue
    · have hs : r.call op = (.ret (none, none), r) :=
        call_structural op r (by simpa [Op.yieldsValue] using hy)
      simp only [runReplayer, hs] at hok ⊢
      have := ih r (fun o ho => hok o (List.mem_cons_of_mem _ ho))
      simpa [List.filter, hy] using this
    · obtain ⟨d⟩ := r
      cases d with
      | nil =>
        have hs := call_nil op hy
        simp only [runReplayer, hs] at hok
        obtain ⟨v, hv⟩ := hok _ (List.mem_cons_self _ _)
        simp at hv
      | cons x rest =>
        rcases call_cons_cases op x rest hy with hs | ⟨m, hs⟩ | ⟨m, hs⟩
        · simp only [runReplayer, hs] at hok ⊢
          have := ih ⟨rest⟩ (fun o ho => hok o (List.mem_cons_of_mem _ ho))
          simpa [List.filter, hy] using this
        · simp only [runReplayer, hs] at hok
          obtain ⟨v, hv⟩ := hok _ (List.mem_cons_self _ _)
          simp at hv
        · simp only [runReplayer, hs] at hok
          obtain ⟨v, hv⟩ := hok _ (List.mem_cons_self _ _)
          simp at hv

section Transparency

variable {σ : Type}

/-- A run of operations through the wrapper returns what the same run returns on
the decoder, and leaves the decoder in the same state. -/
theorem runOps_wrapper (R : Reader σ) (ops : List Op) (cr : bufferingReaderWrapper σ) :
    (runOps (bufferingReaderWrapper.call R) ops cr).1 = (runOps R.call ops cr.reader).1
    ∧ (runOps (bufferingReaderWrapper.call R) ops cr).2.reader
        = (runOps R.call ops cr.reader).2 := by
  induction ops generalizing cr with
  | nil => simp [runOps]
  | cons op ops ih =>
    simp only [runOps]
    have h := ih (bufferingReaderWrapper.call R op cr).2
    rw [wrapper_call_reader] at h
    rw [wrapper_call_reply, h.1, h.2]
    exact ⟨rfl, rfl⟩

/-- A read function run on the wrapper returns the error it returns on the decoder,
and leaves the decoder in the same state. -/
theorem run_wrapper (R : Reader σ) (reader : ReadFunc) (cr : bufferingReaderWrapper σ) :
    (reader.run (bufferingReaderWrapper.call R) cr).1 = (reader.run R.call cr.reader).1
    ∧ (reader.run (bufferingReaderWrapper.call R) cr).2.reader
        = (reader.run R.call cr.reader).2 := by
  induction reader generalizing cr with
  | ret e => simp [ReadFunc.run]
  | call op k ih =>
    simp only [ReadFunc.run]
    have h := ih (bufferingReaderWrapper.call R op cr).1 (bufferingReaderWrapper.call R op cr).2
    rw [wrapper_call_reader, wrapper_call_reply] at h
    rw [wrapper_call_reply]
    exact h

end Transparency

/-! ## The claims -/

/-- C1, at the input where the code departs from it: a decoder whose `ReadReply`
returns the nil reply with no error.  The wrapper returns `(nil, nil)` and captures
the one-element sequence holding nil; `ReadReply` on a replayer over that sequence
does not return nil with no error, it panics. -/
theorem roundtrip_nil_reply_panics :
    (bufferingReaderWrapper.ReadReply nilReplyReader ⟨(), []⟩).1 = (Value.nil, none)
    ∧ (bufferingReaderWrapper.ReadReply nilReplyReader ⟨(), []⟩).2.data = [Value.nil]
    ∧ (ReaderReplayer.ReadReply
        ⟨(bufferingReaderWrapper.ReadReply nilReplyReader ⟨(), []⟩).2.data⟩).1
        = Outcome.panic "invalid memory address or nil pointer dereference" :=
  ⟨rfl, rfl, rfl⟩

/-- Round trip of a run in the model by content, that is for a decoder that does
not write again to a slice it has returned: for every list of operations and every
such decoder whose calls in the run all
return no error and no nil reply, running the list through a wrapper that starts
from the empty capture of a new spy and then running the same list on a replayer
over the captured sequence returns, call by call, what the wrapper returned, and
leaves the replayer with no data. -/
theorem record_then_replay {σ : Type} (R : Reader σ) (ops : List Op) (rd : σ)
    (hok : ∀ p ∈ (runOps R.call ops rd).1, p.2 = none ∧ p.1 ≠ some Value.nil) :
    runReplayer ops
        ⟨(runOps (bufferingReaderWrapper.call R) ops (ReaderSpy.wrapReader ⟨[]⟩ rd)).2.data⟩
      = ((runOps (bufferingReaderWrapper.call R) ops
            (ReaderSpy.wrapReader ⟨[]⟩ rd)).1.map Outcome.ret, ⟨[]⟩) := by
  have hrep := (runOps_wrapper R ops (ReaderSpy.wrapReader ⟨[]⟩ rd)).1
  have hok2 : ∀ p ∈ (runOps (bufferingReaderWrapper.call R) ops
      (ReaderSpy.wrapReader ⟨[]⟩ rd)).1, p.2 = none ∧ p.1 ≠ some Value.nil := by
    rw [hrep]; exact hok
  have h := runReplayer_captured R ops (ReaderSpy.wrapReader ⟨[]⟩ rd) [] hok2
  rw [runOps_wrapper_data]
  simpa [ReaderSpy.wrapReader] using h

/-- The round trip of a run at the mock decoder of the tests, which returns a new
slice on every call, and all fifteen operations. -/
theorem record_then_replay_witness :
    (∀ p ∈ (runOps MockInternalReader.call allOps ()).1, p.2 = none ∧ p.1 ≠ some Value.nil)
    ∧ runReplayer allOps
        ⟨(runOps (bufferingReaderWrapper.call MockInternalReader) allOps
            (ReaderSpy.wrapReader ⟨[]⟩ ())).2.data⟩
      = ((runOps (bufferingReaderWrapper.call MockInternalReader) allOps
            (ReaderSpy.wrapReader ⟨[]⟩ ())).1.map Outcome.ret, ⟨[]⟩) :=
  ⟨by simp [allOps, runOps, Reader.call, MockInternalReader, TypeArg.reply, errReply,
      tyBytes, tyByte, tyIface, tyInt64, tyUint64, tyFloat64, tyString, tyBool, tySlice, tyInt],
   record_then_replay MockInternalReader allOps ()
    (by simp [allOps, runOps, Reader.call, MockInternalReader, TypeArg.reply, errReply,
      tyBytes, tyByte, tyIface, tyInt64, tyUint64, tyFloat64, tyString, tyBool, tySlice, tyInt])⟩

/-- C3 as stated fails: `ReadReply` expects `interface{}`, the head captured by
`ReadString` has dynamic type `string`, and the call returns the head with no
error instead of a zero value with a mismatch error. -/
theorem mismatch_every_op_counterexample :
    ReaderReplayer.call Op.ReadReply ⟨[Value.string "foo"]⟩
      = (Outcome.ret (some (Value.string "foo"), none), ⟨[]⟩)
    ∧ ¬ (∀ (op : Op) (t : GoType) (x : Value) (rest : List Value),
        op.expected = some t → reflectTypeOf x ≠ some t →
        ∃ m, (ReaderReplayer.call op ⟨x :: rest⟩).1 = Outcome.ret (some op.zero, some m)
          ∧ Mentions m "type mismatch") := by
  refine ⟨rfl, ?_⟩
  intro h
  obtain ⟨m, hm, _⟩ := h Op.ReadReply GoType.iface (Value.string "foo") [] rfl
    (by simp [reflectTypeOf])
  have hc : (ReaderReplayer.call Op.ReadReply ⟨[Value.string "foo"]⟩).1
      = Outcome.ret (some (Value.string "foo"), none) := rfl
  rw [hc] at hm
  simp at hm

/-- C3, amended: for every value-yielding operation other than `ReadReply` and
every non-empty sequence whose head has a dynamic type other than the result type
of the operation (the nil value included), the call returns the zero value of the
result type and an error whose message names the mismatch and contains
"type mismatch". -/
theorem mismatch_typed_op (op : Op) (t : GoType) (x : Value) (rest : List Value)
    (hop : op.expected = some t) (hne : op ≠ Op.ReadReply)
    (hx : reflectTypeOf x ≠ some t) :
    (ReaderReplayer.call op ⟨x :: rest⟩).1
        = Outcome.ret (some op.zero, some (mismatchMsg t.Name x))
    ∧ Mentions (mismatchMsg t.Name x) "type mismatch" := by
  rw [call_mismatch op t x rest hop hne hx]
  exact ⟨rfl, mismatchMsg_mentions _ _⟩

/-- C3 amended, at the example of the claim: `ReadInt` on the sequence captured
by `ReadString` returning "foo". -/
theorem mismatch_typed_op_witness :
    (ReaderReplayer.call Op.ReadInt ⟨[Value.string "foo"]⟩).1
        = Outcome.ret (some (Value.int64 0),
            some "type mismatch in cached value, expected int64, got string")
    ∧ Mentions "type mismatch in cached value, expected int64, got string" "type mismatch" :=
  mismatch_typed_op Op.ReadInt GoType.int64 (Value.string "foo") [] rfl
    (by decide) (by simp [reflectTypeOf])

/-- C4 as stated fails: `ReadInt` on the sequence `"foo", 7` returns the mismatch
error and leaves both values in place, so the remaining sequence is not the tail
and the following `ReadInt` meets "foo" again. -/
theorem mismatch_consumes_counterexample :
    ReaderReplayer.call Op.ReadInt ⟨[Value.string "foo", Value.int64 7]⟩
      = (Outcome.ret (some (Value.int64 0),
            some "type mismatch in cached value, expected int64, got string"),
          ⟨[Value.string "foo", Value.int64 7]⟩)
    ∧ ¬ (∀ (op : Op) (x : Value) (rest : List Value) (v : Option Value) (m : String),
          (ReaderReplayer.call op ⟨x :: rest⟩).1 = Outcome.ret (v, some m) →
          (ReaderReplayer.call op ⟨x :: rest⟩).2 = ⟨rest⟩) := by
  refine ⟨rfl, fun h => ?_⟩
  have h1 := h Op.ReadInt (Value.string "foo") [Value.int64 7] _ _ rfl
  have h2 : (ReaderReplayer.call Op.ReadInt ⟨[Value.string "foo", Value.int64 7]⟩).2
      = ⟨[Value.string "foo", Value.int64 7]⟩ := rfl
  rw [h2] at h1
  simp at h1

/-- C4, amended: when a call on a non-empty sequence returns an error, the error
is the mismatch error and the head is not consumed: the remaining sequence is
still the whole sequence, so a following read whose result type is the dynamic
type of the head returns the head and leaves the tail. -/
theorem mismatch_keeps_head (op : Op) (x : Value) (rest : List Value)
    (v : Option Value) (m : String)
    (h : (ReaderReplayer.call op ⟨x :: rest⟩).1 = Outcome.ret (v, some m)) :
    Mentions m "type mismatch"
    ∧ (ReaderReplayer.call op ⟨x :: rest⟩).2 = ⟨x :: rest⟩
    ∧ ∀ (op2 : Op) (t : GoType), op2.expected = some t → reflectTypeOf x = some t →
        ReaderReplayer.call op2 (ReaderReplayer.call op ⟨x :: rest⟩).2
          = (Outcome.ret (some x, none), ⟨rest⟩) := by
  cases hy : op.expected with
  | none =>
    rw [call_structural op _ hy] at h
    simp at h
  | some t =>
    by_cases hr : op = Op.ReadReply
    · subst hr
      by_cases hx : x = Value.nil
      · subst hx
        rw [call_reply_nil] at h
        simp at h
      · rw [call_reply_some x rest hx] at h
        simp at h
    · by_cases hx : reflectTypeOf x = some t
      · rw [call_match op t x rest hy hx] at h
        simp at h
      · rw [call_mismatch op t x rest hy hr hx] at h ⊢
        simp only [Outcome.ret.injEq, Prod.mk.injEq, Option.some.injEq] at h
        refine ⟨h.2 ▸ mismatchMsg_mentions _ _, rfl, ?_⟩
        intro op2 t2 h2 hx2
        exact call_match op2 t2 x rest h2 hx2

/-- C4 amended, at `ReadInt` on the sequence `"foo", 7`: the sequence is kept and
a following `ReadString` returns "foo" and leaves `7`. -/
theorem mismatch_keeps_head_witness :
    Mentions "type mismatch in cached value, expected int64, got string" "type mismatch"
    ∧ (ReaderReplayer.call Op.ReadInt ⟨[Value.string "foo", Value.int64 7]⟩).2
        = ⟨[Value.string "foo", Value.int64 7]⟩
    ∧ ∀ (op2 : Op) (t : GoType), op2.expected = some t →
        reflectTypeOf (Value.string "foo") = some t →
        ReaderReplayer.call op2
            (ReaderReplayer.call Op.ReadInt ⟨[Value.string "foo", Value.int64 7]⟩).2
          = (Outcome.ret (some (Value.string "foo"), none), ⟨[Value.int64 7]⟩) :=
  mismatch_keeps_head Op.ReadInt (Value.string "foo") [Value.int64 7]
    (some (Value.int64 0)) "type mismatch in cached value, expected int64, got string" rfl

/-- C5: a value-yielding operation on a replayer with no remaining data returns
the zero value of its result type and the error "no more data available in the
cached value"; and after a run of calls that all returned without error and that
holds as many value-yielding calls as the sequence has values, every further
value-yielding operation returns that zero value and that error. -/
theorem exhausted_after_all_read (ops : List Op) (data : List Value) (op : Op)
    (hop : op.yieldsValue = true)
    (hn : (ops.filter Op.yieldsValue).length = data.length)
    (hok : ∀ o ∈ (runReplayer ops ⟨data⟩).1, ∃ v, o = Outcome.ret (v, none)) :
    ReaderReplayer.call op ⟨[]⟩
        = (Outcome.ret (some op.zero, some "no more data available in the cached value"), ⟨[]⟩)
    ∧ ReaderReplayer.call op (runReplayer ops ⟨data⟩).2
        = (Outcome.ret (some op.zero, some "no more data available in the cached value"), ⟨[]⟩) := by
  have h := (runReplayer_ok_data ops ⟨data⟩ hok).2
  rw [hn] at h
  simp only [List.drop_length] at h
  have he : (runReplayer ops ⟨data⟩).2 = ⟨[]⟩ := by
    cases hr : (runReplayer ops ⟨data⟩).2 with
    | mk d => rw [hr] at h; simp only at h; rw [h]
  rw [he]
  exact ⟨call_nil op hop, call_nil op hop⟩

/-- C5 at the example of the specification: the sequence captured by `ReadString`
returning "foo", read once by `ReadString`; the second `ReadString` returns the
empty string and the error. -/
theorem exhausted_after_all_read_witness :
    (∀ o ∈ (runReplayer [Op.ReadString] ⟨[Value.string "foo"]⟩).1,
        ∃ v, o = Outcome.ret (v, none))
    ∧ ReaderReplayer.call Op.ReadString ⟨[]⟩
        = (Outcome.ret (some (Value.string ""),
            some "no more data available in the cached value"), ⟨[]⟩)
    ∧ ReaderReplayer.call Op.ReadString
          (runReplayer [Op.ReadString] ⟨[Value.string "foo"]⟩).2
        = (Outcome.ret (some (Value.string ""),
            some "no more data available in the cached value"), ⟨[]⟩) :=
  ⟨fun o ho => ⟨some (Value.string "foo"), by
      have hl : (runReplayer [Op.ReadString] ⟨[Value.string "foo"]⟩).1
          = [Outcome.ret (some (Value.string "foo"), none)] := rfl
      rw [hl] at ho
      simpa using ho⟩,
   exhausted_after_all_read [Op.ReadString] [Value.string "foo"] Op.ReadString rfl rfl
    (fun o ho => ⟨some (Value.string "foo"), by
      have hl : (runReplayer [Op.ReadString] ⟨[Value.string "foo"]⟩).1
          = [Outcome.ret (some (Value.string "foo"), none)] := rfl
      rw [hl] at ho
      simpa using ho⟩)⟩

/-- C6: on a replayer, `ReadFixedArrayLen`, `ReadFixedMapLen` and `DiscardNext`
return no error for every argument and every remaining sequence, and leave the
remaining sequence as it was. -/
theorem replayer_structural_ops (r : ReaderReplayer) (n : Int) :
    r.ReadFixedArrayLen n = (none, r)
    ∧ r.ReadFixedMapLen n = (none, r)
    ∧ r.DiscardNext = (none, r) :=
  ⟨rfl, rfl, rfl⟩

/-- C7: each of the fifteen methods of the wrapper returns exactly the result and
error that the same call returns on the wrapped decoder, whether the call
succeeds or fails; and the wrapped read function returns the error of the read
function run on the wrapper, which is the error the read function returns on the
decoder itself. -/
theorem recorder_transparent {σ : Type} (R : Reader σ) (cr : bufferingReaderWrapper σ)
    (n : Int) (reader : ReadFunc) (spy : ReaderSpy) (rd : σ) :
    (cr.Peek R n).1 = (R.Peek n cr.reader).1
    ∧ (cr.PeekReplyType R).1 = (R.PeekReplyType cr.reader).1
    ∧ (cr.ReadLine R).1 = (R.ReadLine cr.reader).1
    ∧ (cr.ReadReply R).1 = (R.ReadReply cr.reader).1
    ∧ (cr.ReadInt R).1 = (R.ReadInt cr.reader).1
    ∧ (cr.ReadUint R).1 = (R.ReadUint cr.reader).1
    ∧ (cr.ReadFloat R).1 = (R.ReadFloat cr.reader).1
    ∧ (cr.ReadString R).1 = (R.ReadString cr.reader).1
    ∧ (cr.ReadBool R).1 = (R.ReadBool cr.reader).1
    ∧ (cr.ReadSlice R).1 = (R.ReadSlice cr.reader).1
    ∧ (cr.ReadFixedArrayLen R n).1 = (R.ReadFixedArrayLen n cr.reader).1
    ∧ (cr.ReadArrayLen R).1 = (R.ReadArrayLen cr.reader).1
    ∧ (cr.ReadFixedMapLen R n).1 = (R.ReadFixedMapLen n cr.reader).1
    ∧ (cr.ReadMapLen R).1 = (R.ReadMapLen cr.reader).1
    ∧ (cr.DiscardNext R).1 = (R.DiscardNext cr.reader).1
    ∧ (wrappedReader R reader spy rd).1
        = (reader.run (bufferingReaderWrapper.call R) (spy.wrapReader rd)).1
    ∧ (wrappedReader R reader spy rd).1 = (reader.run R.call rd).1 :=
  ⟨rfl, rfl, rfl, rfl, rfl, rfl, rfl, rfl, rfl, rfl, rfl, rfl, rfl, rfl, rfl, rfl,
   (run_wrapper R reader (spy.wrapReader rd)).1⟩

/-- C8: after each of the twelve value-yielding methods of the wrapper, the capture
is the capture before the call followed by exactly one value, the one the decoder
returned, whatever error the decoder returned with it. -/
theorem recorder_appends_one {σ : Type} (R : Reader σ) (cr : bufferingReaderWrapper σ)
    (n : Int) :
    (cr.Peek R n).2.data = cr.data ++ [Value.bytes (R.Peek n cr.reader).1.1]
    ∧ (cr.PeekReplyType R).2.data = cr.data ++ [Value.uint8 (R.PeekReplyType cr.reader).1.1]
    ∧ (cr.ReadLine R).2.data = cr.data ++ [Value.bytes (R.ReadLine cr.reader).1.1]
    ∧ (cr.ReadReply R).2.data = cr.data ++ [(R.ReadReply cr.reader).1.1]
    ∧ (cr.ReadInt R).2.data = cr.data ++ [Value.int64 (R.ReadInt cr.reader).1.1]
    ∧ (cr.ReadUint R).2.data = cr.data ++ [Value.uint64 (R.ReadUint cr.reader).1.1]
    ∧ (cr.ReadFloat R).2.data = cr.data ++ [Value.float64 (R.ReadFloat cr.reader).1.1]
    ∧ (cr.ReadString R).2.data = cr.data ++ [Value.string (R.ReadString cr.reader).1.1]
    ∧ (cr.ReadBool R).2.data = cr.data ++ [Value.bool (R.ReadBool cr.reader).1.1]
    ∧ (cr.ReadSlice R).2.data = cr.data ++ [Value.slice (R.ReadSlice cr.reader).1.1]
    ∧ (cr.ReadArrayLen R).2.data = cr.data ++ [Value.int (R.ReadArrayLen cr.reader).1.1]
    ∧ (cr.ReadMapLen R).2.data = cr.data ++ [Value.int (R.ReadMapLen cr.reader).1.1] :=
  ⟨rfl, rfl, rfl, rfl, rfl, rfl, rfl, rfl, rfl, rfl, rfl, rfl⟩

/-- C9: `ReadFixedArrayLen`, `ReadFixedMapLen` and `DiscardNext` on the wrapper
make the same call on the decoder, return its error, leave the decoder in the
state that call leaves it in, and leave the capture as it was, for every argument
and whatever the decoder returns. -/
theorem recorder_structural_ops {σ : Type} (R : Reader σ) (cr : bufferingReaderWrapper σ)
    (n : Int) :
    cr.ReadFixedArrayLen R n
        = ((R.ReadFixedArrayLen n cr.reader).1, ⟨(R.ReadFixedArrayLen n cr.reader).2, cr.data⟩)
    ∧ cr.ReadFixedMapLen R n
        = ((R.ReadFixedMapLen n cr.reader).1, ⟨(R.ReadFixedMapLen n cr.reader).2, cr.data⟩)
    ∧ cr.DiscardNext R
        = ((R.DiscardNext cr.reader).1, ⟨(R.DiscardNext cr.reader).2, cr.data⟩) :=
  ⟨rfl, rfl, rfl⟩

/-- C10: for a key that the encoder encodes to `ek`, `GetKey` returns
`(nil, false, nil)` when the store reports no entry under `ek`, and when the store
returns a sequence under `ek` it returns a replayer whose remaining data is that
sequence, together with `true` and no error. -/
theorem GetKey_miss_and_hit {S : Type} (D : Deps S) (c : Cache S) (key : Value)
    (ek : List Nat) (henc : D.gobEncode key = (none, ek)) :
    ((D.store.Get ek c.cache).1.2 = false → (c.GetKey D key).1 = (none, false, none))
    ∧ (∀ d : List Value, (D.store.Get ek c.cache).1 = (Value.slice (some d), true) →
        (c.GetKey D key).1 = (some ⟨d⟩, true, none))
    ∧ ((D.store.Get ek c.cache).1 = (Value.slice none, true) →
        (c.GetKey D key).1 = (some ⟨[]⟩, true, none)) := by
  have hk : Cache.encodeKey D key = (some ek, none) := by
    simp [Cache.encodeKey, henc]
  refine ⟨fun h => ?_, fun d h => ?_, fun h => ?_⟩
  · simp [Cache.GetKey, hk, h]
  · simp [Cache.GetKey, hk, h, tySlice]
  · simp [Cache.GetKey, hk, h, tySlice]

/-- C10 on the in-memory store with the key "k": a miss on the empty store, a hit
on a store that holds the sequence captured by `ReadString` returning "foo". -/
theorem GetKey_miss_and_hit_witness :
    (Cache.GetKey testDeps ⟨[]⟩ (Value.string "k")).1 = (none, false, none)
    ∧ (Cache.GetKey testDeps ⟨[([107], Value.slice (some [Value.string "foo"]))]⟩
          (Value.string "k")).1
        = (some ⟨[Value.string "foo"]⟩, true, none) :=
  ⟨(GetKey_miss_and_hit testDeps ⟨[]⟩ (Value.string "k") [107] rfl).1 rfl,
   (GetKey_miss_and_hit testDeps ⟨[([107], Value.slice (some [Value.string "foo"]))]⟩
      (Value.string "k") [107] rfl).2.1 [Value.string "foo"] rfl⟩

/-- C11: for a key on which the encoder returns the error `err`, `StoreInCache`
and `setKey` return `(false, err)`, `GetKey` returns `(nil, false, err)` and
`ClearKey` returns `err`, the error being the one the encoder returned; and this
holds with the state of the store unchanged whatever the operations of the store
are, so the store is not contacted. -/
theorem unencodable_key {S : Type} (enc : Value → Error × List Nat) (store : Ristretto S)
    (c : Cache S) (ri : ReaderSpy) (key value : Value) (err : String)
    (henc : (enc key).1 = some err) :
    ri.StoreInCache ⟨enc, store⟩ c key = ((false, some err), c)
    ∧ c.setKey ⟨enc, store⟩ key value = ((false, some err), c)
    ∧ c.GetKey ⟨enc, store⟩ key = ((none, false, some err), c)
    ∧ c.ClearKey ⟨enc, store⟩ key = (some err, c) := by
  have hk : Cache.encodeKey ⟨enc, store⟩ key = (none, some err) := by
    simp [Cache.encodeKey, henc]
  refine ⟨?_, ?_, ?_, ?_⟩
  · simp [ReaderSpy.StoreInCache, Cache.setKey, hk]
  · simp [Cache.setKey, hk]
  · simp [Cache.GetKey, hk]
  · simp [Cache.ClearKey, hk]

/-- C11 at the channel key of the tests, on the store that records every contact:
after each of the four calls the store still has its untouched state `false`. -/
theorem unencodable_key_witness :
    ReaderSpy.StoreInCache ⟨stringKeyEncode, tripStore⟩ ⟨[Value.string "foo"]⟩ ⟨false⟩ chanKey
        = ((false, some "gob: type not supported"), ⟨false⟩)
    ∧ Cache.setKey ⟨stringKeyEncode, tripStore⟩ ⟨false⟩ chanKey (Value.string "foo")
        = ((false, some "gob: type not supported"), ⟨false⟩)
    ∧ Cache.GetKey ⟨stringKeyEncode, tripStore⟩ ⟨false⟩ chanKey
        = ((none, false, some "gob: type not supported"), ⟨false⟩)
    ∧ Cache.ClearKey ⟨stringKeyEncode, tripStore⟩ ⟨false⟩ chanKey
        = (some "gob: type not supported", ⟨false⟩) :=
  unencodable_key stringKeyEncode tripStore ⟨false⟩ ⟨[Value.string "foo"]⟩ chanKey
    (Value.string "foo") "gob: type not supported" rfl

/-- C12: for a key that the encoder encodes to `ek` and a spy with capture `s`,
`StoreInCache` calls the insertion of the store once, with `ek`, the capture and
cost 0, and returns its answer with no error, whether the store accepts the
insertion or not and whether it is visible at once or not; in every state of the
cache in which the store returns that capture under `ek` (the insertion has
become visible), `GetKey` returns `true`, no error and a replayer over `s`; and on
the capture of one `ReadString` that returned "foo", the first `ReadString` of
the replayer returns "foo" with no error and the second returns the empty string
with the exhaustion error. -/
theorem store_then_get {S : Type} (D : Deps S) (c : Cache S) (ri : ReaderSpy) (key : Value)
    (ek : List Nat) (henc : D.gobEncode key = (none, ek)) :
    ri.StoreInCache D c key
        = (((D.store.Set ek (Value.slice (some ri.data)) 0 c.cache).1, none),
            ⟨(D.store.Set ek (Value.slice (some ri.data)) 0 c.cache).2⟩)
    ∧ (∀ c2 : Cache S,
        (D.store.Get ek c2.cache).1 = (Value.slice (some ri.data), true) →
        (c2.GetKey D key).1 = (some ⟨ri.data⟩, true, none))
    ∧ (ReaderReplayer.ReadString ⟨[Value.string "foo"]⟩) = (Outcome.ret ("foo", none), ⟨[]⟩)
    ∧ (ReaderReplayer.ReadString (ReaderReplayer.ReadString ⟨[Value.string "foo"]⟩).2)
        = (Outcome.ret ("", some "no more data available in the cached value"), ⟨[]⟩) := by
  have hk : Cache.encodeKey D key = (some ek, none) := by
    simp [Cache.encodeKey, henc]
  refine ⟨?_, fun c2 hvis => ?_, rfl, rfl⟩
  · simp [ReaderSpy.StoreInCache, Cache.setKey, hk, tySlice]
  · simp [Cache.GetKey, hk, hvis, tySlice]

/-- C12 at the scenario of the specification, on the store with buffered
insertions: the capture of one `ReadString` that returned "foo" is stored under
the key "k" and accepted; the `GetKey` that follows at once does not find it yet,
the next one returns a replayer over the capture. -/
theorem store_then_get_witness :
    ReaderSpy.StoreInCache bufferedDeps ⟨[Value.string "foo"]⟩ ⟨([], [])⟩ (Value.string "k")
        = ((true, none), ⟨([], [([107], Value.slice (some [Value.string "foo"]))])⟩)
    ∧ ((ReaderSpy.StoreInCache bufferedDeps ⟨[Value.string "foo"]⟩ ⟨([], [])⟩
          (Value.string "k")).2.GetKey bufferedDeps (Value.string "k")).1
        = (none, false, none)
    ∧ (((ReaderSpy.StoreInCache bufferedDeps ⟨[Value.string "foo"]⟩ ⟨([], [])⟩
          (Value.string "k")).2.GetKey bufferedDeps (Value.string "k")).2.GetKey
            bufferedDeps (Value.string "k")).1
        = (some ⟨[Value.string "foo"]⟩, true, none)
    ∧ (ReaderReplayer.ReadString ⟨[Value.string "foo"]⟩) = (Outcome.ret ("foo", none), ⟨[]⟩)
    ∧ (ReaderReplayer.ReadString (ReaderReplayer.ReadString ⟨[Value.string "foo"]⟩).2)
        = (Outcome.ret ("", some "no more data available in the cached value"), ⟨[]⟩) :=
  ⟨(store_then_get bufferedDeps ⟨([], [])⟩ ⟨[Value.string "foo"]⟩ (Value.string "k")
      [107] rfl).1,
   rfl,
   (store_then_get bufferedDeps ⟨([], [])⟩ ⟨[Value.string "foo"]⟩ (Value.string "k")
      [107] rfl).2.1
      ((ReaderSpy.StoreInCache bufferedDeps ⟨[Value.string "foo"]⟩ ⟨([], [])⟩
          (Value.string "k")).2.GetKey bufferedDeps (Value.string "k")).2 rfl,
   rfl, rfl⟩

/-- C13 as stated fails on a store with buffered insertions: the capture "foo" is
stored under "k" and is still in the buffer when `ClearKey` deletes "k"; `ClearKey`
returns no error, and the `GetKey` that follows returns `true` and a replayer over
the capture. -/
theorem clear_then_get_counterexample :
    Cache.ClearKey bufferedDeps
        (ReaderSpy.StoreInCache bufferedDeps ⟨[Value.string "foo"]⟩ ⟨([], [])⟩
          (Value.string "k")).2 (Value.string "k")
      = (none, ⟨([([107], Value.slice (some [Value.string "foo"]))], [])⟩)
    ∧ ((Cache.ClearKey bufferedDeps
        (ReaderSpy.StoreInCache bufferedDeps ⟨[Value.string "foo"]⟩ ⟨([], [])⟩
          (Value.string "k")).2 (Value.string "k")).2.GetKey bufferedDeps (Value.string "k")).1
      = (some ⟨[Value.string "foo"]⟩, true, none)
    ∧ ¬ (∀ (S : Type) (D : Deps S) (c : Cache S) (key : Value) (ek : List Nat),
          D.gobEncode key = (none, ek) →
          (c.ClearKey D key).1 = none
          ∧ ((c.ClearKey D key).2.GetKey D key).1 = (none, false, none)) := by
  refine ⟨rfl, rfl, fun h => ?_⟩
  have h1 := (h _ bufferedDeps
    (ReaderSpy.StoreInCache bufferedDeps ⟨[Value.string "foo"]⟩ ⟨([], [])⟩
      (Value.string "k")).2 (Value.string "k") [107] rfl).2
  have h2 : ((Cache.ClearKey bufferedDeps
        (ReaderSpy.StoreInCache bufferedDeps ⟨[Value.string "foo"]⟩ ⟨([], [])⟩
          (Value.string "k")).2 (Value.string "k")).2.GetKey bufferedDeps (Value.string "k")).1
      = (some ⟨[Value.string "foo"]⟩, true, none) := rfl
  rw [h2] at h1
  simp at h1

/-- C13, amended: for a key that the encoder encodes to `ek`, `ClearKey` returns no
error and makes one deletion on the store, whatever the store holds; and when the
lookup of `ek` on the store after that deletion finds nothing, the `GetKey` that
follows returns `(nil, false, nil)`, so no replayer is produced. -/
theorem clear_then_get {S : Type} (D : Deps S) (c : Cache S) (key : Value) (ek : List Nat)
    (henc : D.gobEncode key = (none, ek))
    (hdel : (D.store.Get ek (D.store.Del ek c.cache)).1.2 = false) :
    c.ClearKey D key = (none, ⟨D.store.Del ek c.cache⟩)
    ∧ ((c.ClearKey D key).2.GetKey D key).1 = (none, false, none) := by
  have hk : Cache.encodeKey D key = (some ek, none) := by
    simp [Cache.encodeKey, henc]
  have hc : c.ClearKey D key = (none, ⟨D.store.Del ek c.cache⟩) := by
    simp [Cache.ClearKey, hk]
  refine ⟨hc, ?_⟩
  rw [hc]
  simp [Cache.GetKey, hk, hdel]

/-- C13 on the in-memory store with the key "k": once with the entry present, once
on the empty store. -/
theorem clear_then_get_witness :
    (Cache.ClearKey testDeps ⟨[([107], Value.slice (some [Value.string "foo"]))]⟩
        (Value.string "k") = (none, ⟨[]⟩)
      ∧ ((Cache.ClearKey testDeps ⟨[([107], Value.slice (some [Value.string "foo"]))]⟩
            (Value.string "k")).2.GetKey testDeps (Value.string "k")).1 = (none, false, none))
    ∧ (Cache.ClearKey testDeps ⟨[]⟩ (Value.string "k") = (none, ⟨[]⟩)
      ∧ ((Cache.ClearKey testDeps ⟨[]⟩ (Value.string "k")).2.GetKey testDeps
            (Value.string "k")).1 = (none, false, none)) :=
  ⟨clear_then_get testDeps ⟨[([107], Value.slice (some [Value.string "foo"]))]⟩
      (Value.string "k") [107] rfl rfl,
   clear_then_get testDeps ⟨[]⟩ (Value.string "k") [107] rfl rfl⟩

/-- C14 as stated fails on a store with buffered insertions: the capture "foo" is
stored under "k" and is still in the buffer when `Clear` empties the store; the
`GetKey` that follows returns `true` and a replayer over the capture, and a second
`Clear` leaves another state than the first. -/
theorem clear_all_counterexample :
    ((Cache.Clear bufferedDeps
        (ReaderSpy.StoreInCache bufferedDeps ⟨[Value.string "foo"]⟩ ⟨([], [])⟩
          (Value.string "k")).2).GetKey bufferedDeps (Value.string "k")).1
      = (some ⟨[Value.string "foo"]⟩, true, none)
    ∧ Cache.Clear bufferedDeps
        (ReaderSpy.StoreInCache bufferedDeps ⟨[Value.string "foo"]⟩ ⟨([], [])⟩
          (Value.string "k")).2
      = ⟨([([107], Value.slice (some [Value.string "foo"]))], [])⟩
    ∧ Cache.Clear bufferedDeps (Cache.Clear bufferedDeps
        (ReaderSpy.StoreInCache bufferedDeps ⟨[Value.string "foo"]⟩ ⟨([], [])⟩
          (Value.string "k")).2)
      = ⟨([], [])⟩
    ∧ ¬ (∀ (S : Type) (D : Deps S) (c : Cache S) (key : Value) (ek : List Nat),
          D.gobEncode key = (none, ek) →
          ((c.Clear D).GetKey D key).1 = (none, false, none)) := by
  refine ⟨rfl, rfl, rfl, fun h => ?_⟩
  have h1 := h _ bufferedDeps
    (ReaderSpy.StoreInCache bufferedDeps ⟨[Value.string "foo"]⟩ ⟨([], [])⟩
      (Value.string "k")).2 (Value.string "k") [107] rfl
  have h2 : ((Cache.Clear bufferedDeps
        (ReaderSpy.StoreInCache bufferedDeps ⟨[Value.string "foo"]⟩ ⟨([], [])⟩
          (Value.string "k")).2).GetKey bufferedDeps (Value.string "k")).1
      = (some ⟨[Value.string "foo"]⟩, true, none) := rfl
  rw [h2] at h1
  simp at h1

/-- C14, amended: `Clear` returns nothing but the cache, so it has no error, and it
makes one `Clear` on the store; when
every lookup on the store after its `Clear` finds nothing, then after
`Clear` on any cache state `GetKey` returns `(nil, false, nil)` for every key the
encoder encodes, and after a second `Clear` it returns the same; the two cache
states are equal when `Clear` of the store is idempotent on that state. -/
theorem clear_all {S : Type} (D : Deps S) (c : Cache S)
    (hclear : ∀ (s : S) (k : List Nat), (D.store.Get k (D.store.Clear s)).1.2 = false) :
    (∀ (key : Value) (ek : List Nat), D.gobEncode key = (none, ek) →
        ((c.Clear D).GetKey D key).1 = (none, false, none)
        ∧ (((c.Clear D).Clear D).GetKey D key).1 = ((c.Clear D).GetKey D key).1)
    ∧ (D.store.Clear (D.store.Clear c.cache) = D.store.Clear c.cache →
        (c.Clear D).Clear D = c.Clear D)
    ∧ c.Clear D = ⟨D.store.Clear c.cache⟩ := by
  refine ⟨fun key ek henc => ?_, fun h => ?_, rfl⟩
  · have hk : Cache.encodeKey D key = (some ek, none) := by
      simp [Cache.encodeKey, henc]
    have h1 : ((c.Clear D).GetKey D key).1 = (none, false, none) := by
      simp [Cache.GetKey, Cache.Clear, hk, hclear]
    have h2 : (((c.Clear D).Clear D).GetKey D key).1 = (none, false, none) := by
      simp [Cache.GetKey, Cache.Clear, hk, hclear]
    exact ⟨h1, h2.trans h1.symm⟩
  · simp [Cache.Clear, h]

/-- C14 on the in-memory store holding an entry under the key "k", as in the test
"should be able to clear all". -/
theorem clear_all_witness :
    ((Cache.Clear testDeps cacheWithFoo).GetKey testDeps (Value.string "k")).1
        = (none, false, none)
    ∧ (((Cache.Clear testDeps cacheWithFoo).Clear testDeps).GetKey testDeps
          (Value.string "k")).1
        = ((Cache.Clear testDeps cacheWithFoo).GetKey testDeps (Value.string "k")).1
    ∧ (Cache.Clear testDeps cacheWithFoo).Clear testDeps = Cache.Clear testDeps cacheWithFoo :=
  ⟨((clear_all testDeps cacheWithFoo (fun _ _ => rfl)).1 (Value.string "k") [107] rfl).1,
   ((clear_all testDeps cacheWithFoo (fun _ _ => rfl)).1 (Value.string "k") [107] rfl).2,
   (clear_all testDeps cacheWithFoo (fun _ _ => rfl)).2.1 rfl⟩

/-! ## Lemmas for the step invariant of the replayer -/

/-- Every call on the replayer is of one of three sorts: a value-yielding call
that returns the head and advances, a structural call, or a value-yielding call
that returns an error or panics and leaves the replayer as it was. -/
theorem call_step (op : Op) (r : ReaderReplayer) :
    (op.yieldsValue = true
      ∧ ∃ x rest, r.data = x :: rest ∧ r.call op = (Outcome.ret (some x, none), ⟨rest⟩))
    ∨ (op.yieldsValue = false ∧ r.call op = (Outcome.ret (none, none), r))
    ∨ (op.yieldsValue = true ∧ (r.call op).2 = r
      ∧ ((∃ v m, (r.call op).1 = Outcome.ret (v, some m))
        ∨ ∃ m, (r.call op).1 = Outcome.panic m)) := by
  cases hy : op.yieldsValue
  · exact Or.inr (Or.inl ⟨rfl, call_structural op r (by simpa [Op.yieldsValue] using hy)⟩)
  · obtain ⟨d⟩ := r
    cases d with
    | nil =>
      refine Or.inr (Or.inr ⟨rfl, ?_, Or.inl ⟨some op.zero, exhaustedMsg, ?_⟩⟩)
      · rw [call_nil op hy]
      · rw [call_nil op hy]
    | cons x rest =>
      rcases call_cons_cases op x rest hy with hs | ⟨m, hs⟩ | ⟨m, hs⟩
      · exact Or.inl ⟨rfl, x, rest, rfl, hs⟩
      · refine Or.inr (Or.inr ⟨rfl, ?_, Or.inl ⟨some op.zero, m, ?_⟩⟩)
        · rw [hs]
        · rw [hs]
      · refine Or.inr (Or.inr ⟨rfl, ?_, Or.inr ⟨m, ?_⟩⟩)
        · rw [hs]
        · rw [hs]

/-- The data left by a run on the replayer is a suffix of the data it started
from, and the run has consumed one value per successful value-yielding call. -/
theorem runReplayer_suffix_count (ops : List Op) (r : ReaderReplayer) :
    (runReplayer ops r).2.data <:+ r.data
    ∧ r.data.length
        = (runReplayer ops r).2.data.length + successes ops (runReplayer ops r).1 := by
  induction ops generalizing r with
  | nil => simp [runReplayer, successes]
  | cons op ops ih =>
    rcases call_step op r with ⟨hy, x, rest, hd, hc⟩ | ⟨hy, hc⟩ | ⟨hy, hst, ⟨v, m, hc⟩ | ⟨m, hc⟩⟩
    · have h := ih ⟨rest⟩
      simp only [runReplayer, hc, successes, hy, if_true, hd, List.length_cons]
      refine ⟨h.1.trans (List.suffix_cons x rest), ?_⟩
      have := h.2
      simp only at this
      omega
    · have h := ih r
      simp only [runReplayer, hc, successes, hy]
      refine ⟨h.1, ?_⟩
      have := h.2
      simp only [Bool.false_eq_true, if_false, Nat.zero_add]
      exact this
    · have h := ih r
      simp only [runReplayer, hc, hst, successes]
      exact h
    · simp only [runReplayer, hc, hst, successes]
      exact ⟨List.suffix_refl _, rfl⟩

/-! ## The claims, continued -/

/-- C15, at the input where the code departs from it: `ReadReply` on a replayer
whose next value is nil, as captured from a `ReadReply` that returned nil, does not
return: the failed assertion leads to `reflect.TypeOf(zeroValue).Name()` on the
nil interface, which panics.  Every other call returns normally: every operation
other than `ReadReply` on every sequence, and `ReadReply` on every sequence whose
next value is not nil. -/
theorem replayer_panics_on_nil_reply :
    ReaderReplayer.ReadReply ⟨[Value.nil]⟩
        = (Outcome.panic "invalid memory address or nil pointer dereference", ⟨[Value.nil]⟩)
    ∧ (∀ (op : Op) (r : ReaderReplayer),
        (op ≠ Op.ReadReply ∨ r.data.head? ≠ some Value.nil) →
        ∃ p, (r.call op).1 = Outcome.ret p) := by
  refine ⟨rfl, fun op r h => ?_⟩
  cases hy : op.expected with
  | none => exact ⟨_, by rw [call_structural op r hy]⟩
  | some t =>
    have hv : op.yieldsValue = true := by simp [Op.yieldsValue, hy]
    obtain ⟨d⟩ := r
    cases d with
    | nil => exact ⟨_, by rw [call_nil op hv]⟩
    | cons x rest =>
      by_cases hr : op = Op.ReadReply
      · subst hr
        have hx : x ≠ Value.nil := by
          rcases h with h | h
          · exact absurd rfl h
          · intro hx; apply h; simp [hx]
        exact ⟨_, by rw [call_reply_some x rest hx]⟩
      · by_cases hx : reflectTypeOf x = some t
        · exact ⟨_, by rw [call_match op t x rest hy hx]⟩
        · exact ⟨_, by rw [call_mismatch op t x rest hy hr hx]⟩

/-- C16, at the inputs where the code departs from it: on a head of another type,
`Peek`, `ReadLine` and `ReadSlice` return a mismatch error whose message has
nothing between "expected " and ", got": the name that `reflect.Type.Name` gives
for `[]byte` and for `[]interface{}` is empty.  For the other typed operations
the message holds the non-empty name of the expected type and the type of the
stored value. -/
theorem mismatch_message_expected_name :
    ReaderReplayer.Peek ⟨[Value.string "foo"]⟩ 5
        = (Outcome.ret (none, some "type mismatch in cached value, expected , got string"),
            ⟨[Value.string "foo"]⟩)
    ∧ ReaderReplayer.ReadLine ⟨[Value.string "foo"]⟩
        = (Outcome.ret (none, some "type mismatch in cached value, expected , got string"),
            ⟨[Value.string "foo"]⟩)
    ∧ ReaderReplayer.ReadSlice ⟨[Value.string "foo"]⟩
        = (Outcome.ret (none, some "type mismatch in cached value, expected , got string"),
            ⟨[Value.string "foo"]⟩)
    ∧ GoType.bytes.Name = "" ∧ GoType.slice.Name = ""
    ∧ (∀ (op : Op) (t : GoType) (x : Value) (rest : List Value),
        op.expected = some t → op ≠ Op.ReadReply → t ≠ GoType.bytes → t ≠ GoType.slice →
        reflectTypeOf x ≠ some t →
        (ReaderReplayer.call op ⟨x :: rest⟩).1
            = Outcome.ret (some op.zero, some (mismatchMsg t.Name x))
        ∧ t.Name ≠ ""
        ∧ Mentions (mismatchMsg t.Name x) t.Name
        ∧ Mentions (mismatchMsg t.Name x) (fmtT x)) := by
  refine ⟨rfl, rfl, rfl, rfl, rfl, fun op t x rest hop hne hb hs hx => ?_⟩
  refine ⟨by rw [call_mismatch op t x rest hop hne hx], ?_, ?_, ?_⟩
  · cases op <;> simp [Op.expected] at hop <;> subst hop <;>
      first
      | exact absurd rfl hne
      | exact absurd rfl hb
      | exact absurd rfl hs
      | decide
  · refine ⟨"type mismatch in cached value, expected ".data, (", got " ++ fmtT x).data, ?_⟩
    simp [mismatchMsg, String.data_append, List.append_assoc]
  · refine ⟨("type mismatch in cached value, expected " ++ t.Name ++ ", got ").data, [], ?_⟩
    simp [mismatchMsg, String.data_append, List.append_assoc]

/-- C19: the step invariant of the replayer.  After a call the replayer is as it
was or its data is the data before without the first value, and the second holds
exactly when the operation is value-yielding and returned without error; a call
that did not return without error, made again at once, ends in the same way; and
after any run of calls the data left is a suffix of the data the replayer started
from, the number of values consumed being the number of value-yielding calls that
returned without error. -/
theorem replayer_step_invariant :
    (∀ (op : Op) (r : ReaderReplayer),
        (r.call op).2 = r ∨ ∃ x, r.data = x :: (r.call op).2.data)
    ∧ (∀ (op : Op) (r : ReaderReplayer),
        (∃ x, r.data = x :: (r.call op).2.data)
          ↔ (op.yieldsValue = true ∧ ∃ v, (r.call op).1 = Outcome.ret (v, none)))
    ∧ (∀ (op : Op) (r : ReaderReplayer),
        (¬ ∃ v, (r.call op).1 = Outcome.ret (v, none)) →
        (r.call op).2.call op = r.call op)
    ∧ (∀ (ops : List Op) (r : ReaderReplayer),
        (runReplayer ops r).2.data <:+ r.data
        ∧ r.data.length
            = (runReplayer ops r).2.data.length + successes ops (runReplayer ops r).1) := by
  refine ⟨fun op r => ?_, fun op r => ?_, fun op r hf => ?_, runReplayer_suffix_count⟩
  · rcases call_step op r with ⟨_, x, rest, hd, hc⟩ | ⟨_, hc⟩ | ⟨_, hst, _⟩
    · exact Or.inr ⟨x, by rw [hc, hd]⟩
    · exact Or.inl (by rw [hc])
    · exact Or.inl hst
  · rcases call_step op r with ⟨hy, x, rest, hd, hc⟩ | ⟨hy, hc⟩ | ⟨hy, hst, hfail⟩
    · constructor
      · intro _
        exact ⟨hy, some x, by rw [hc]⟩
      · intro _
        exact ⟨x, by rw [hc, hd]⟩
    · constructor
      · rintro ⟨x, hx⟩
        rw [hc] at hx
        have := congrArg List.length hx
        simp at this
      · rintro ⟨h1, _⟩
        rw [hy] at h1
        exact absurd h1 (by decide)
    · constructor
      · rintro ⟨x, hx⟩
        rw [hst] at hx
        have := congrArg List.length hx
        simp at this
      · rintro ⟨_, v, hv⟩
        rcases hfail with ⟨w, m, hw⟩ | ⟨m, hw⟩
        · rw [hw] at hv
          simp at hv
        · rw [hw] at hv
          simp at hv
  · rcases call_step op r with ⟨_, x, rest, _, hc⟩ | ⟨_, hc⟩ | ⟨_, hst, _⟩
    · exact absurd ⟨some x, by rw [hc]⟩ hf
    · exact absurd ⟨none, by rw [hc]⟩ hf
    · rw [hst]

/-- C20: `ReadReply` on a replayer whose next value is not nil returns that value
as it is, with no error, and consumes it, whatever the dynamic type of the value
and whichever operation captured it. -/
theorem readReply_no_kind_check (x : Value) (rest : List Value) (hx : x ≠ Value.nil) :
    ReaderReplayer.ReadReply ⟨x :: rest⟩ = (Outcome.ret (x, none), ⟨rest⟩) := by
  cases x <;> first | exact absurd rfl hx | rfl

/-- C20 at values as `ReadString`, `ReadInt`, `Peek` and `ReadBool` capture
them. -/
theorem readReply_no_kind_check_witness :
    ReaderReplayer.ReadReply ⟨[Value.string "foo", Value.int64 7]⟩
        = (Outcome.ret (Value.string "foo", none), ⟨[Value.int64 7]⟩)
    ∧ ReaderReplayer.ReadReply ⟨[Value.int64 42]⟩ = (Outcome.ret (Value.int64 42, none), ⟨[]⟩)
    ∧ ReaderReplayer.ReadReply ⟨[Value.bytes (some [97, 97])]⟩
        = (Outcome.ret (Value.bytes (some [97, 97]), none), ⟨[]⟩)
    ∧ ReaderReplayer.ReadReply ⟨[Value.bool true]⟩ = (Outcome.ret (Value.bool true, none), ⟨[]⟩) :=
  ⟨readReply_no_kind_check (Value.string "foo") [Value.int64 7] (fun h => Value.noConfusion h),
   readReply_no_kind_check (Value.int64 42) [] (fun h => Value.noConfusion h),
   readReply_no_kind_check (Value.bytes (some [97, 97])) [] (fun h => Value.noConfusion h),
   readReply_no_kind_check (Value.bool true) [] (fun h => Value.noConfusion h)⟩

/-! ## Lemmas on slices in memory -/

theorem take_drop_set {α : Type} (l : List α) (i m n : Nat) (v : α) (h : m + n ≤ i) :
    ((l.set i v).drop m).take n = (l.drop m).take n := by
  apply List.ext_getElem?
  intro j
  simp only [List.getElem?_take, List.getElem?_drop]
  split
  · rw [List.getElem?_set_ne (by omega)]
  · rfl

theorem view_length (h : Heap) (s : SliceHdr) (hv : s.Valid h) : (h.view s).length = s.len := by
  obtain ⟨_, h2, h3⟩ := hv
  simp only [Heap.view, List.length_take, List.length_drop]
  omega

theorem array_set_same (h : Heap) (a : Nat) (l : List Value) (ha : a < h.length) :
    Heap.array (h.set a l) a = l := by
  simp [Heap.array, List.getElem?_set_self, ha]

theorem array_set_other (h : Heap) (a b : Nat) (l : List Value) (hab : b ≠ a) :
    Heap.array (h.set a l) b = Heap.array h b := by
  simp [Heap.array, List.getElem?_set_ne (Ne.symm hab)]

theorem array_append_old (h : Heap) (l : List Value) (b : Nat) (hb : b < h.length) :
    Heap.array (h ++ [l]) b = Heap.array h b := by
  simp [Heap.array, List.getElem?_append_left hb]

theorem array_append_new (h : Heap) (l : List Value) :
    Heap.array (h ++ [l]) h.length = l := by
  simp [Heap.array]

/-- One `append` through the header `r`: a header out of its reach denotes what it
denoted, the new header denotes the old sequence followed by the value, and both
stay as they must be for the next `append`. -/
theorem goAppend_spec (spare : Nat) (h : Heap) (r st : SliceHdr) (v : Value)
    (hv : r.Valid h) (hc : Covers h r st) :
    Heap.view (goAppend spare h r v).1 st = Heap.view h st
    ∧ Heap.view (goAppend spare h r v).1 (goAppend spare h r v).2 = Heap.view h r ++ [v]
    ∧ (goAppend spare h r v).2.Valid (goAppend spare h r v).1
    ∧ Covers (goAppend spare h r v).1 (goAppend spare h r v).2 st := by
  obtain ⟨hr1, hr2, hr3⟩ := hv
  obtain ⟨hs1, hs2⟩ := hc
  by_cases hlt : r.len < r.cap
  · simp only [goAppend, hlt, if_true]
    refine ⟨?_, ?_, ?_, ?_⟩
    · by_cases hab : st.arr = r.arr
      · simp only [Heap.view]
        rw [hab, array_set_same _ _ _ hr1]
        exact take_drop_set _ _ _ _ _ (hs2 hab)
      · simp only [Heap.view]
        rw [array_set_other _ _ _ _ hab]
    · simp only [Heap.view]
      rw [array_set_same _ _ _ hr1, List.take_succ, take_drop_set _ _ _ _ _ (le_refl _)]
      congr 1
      rw [List.getElem?_drop, List.getElem?_set_self]
      simp
      omega
    · refine ⟨by simpa using hr1, by simp only; omega, ?_⟩
      simp only
      rw [array_set_same _ _ _ hr1]
      simpa using hr3
    · refine ⟨by simpa using hs1, fun hab => ?_⟩
      have := hs2 hab
      simp only
      omega
  · simp only [goAppend, hlt, if_false]
    have hlen := view_length h r ⟨hr1, hr2, hr3⟩
    refine ⟨?_, ?_, ?_, ?_⟩
    · simp only [Heap.view]
      rw [array_append_old _ _ _ hs1]
    · simp only [Heap.view]
      rw [array_append_new, List.drop_zero]
      have : (h.view r ++ v :: List.replicate spare Value.nil)
          = (h.view r ++ [v]) ++ List.replicate spare Value.nil := by simp
      rw [Heap.view] at this hlen
      rw [this, List.take_left']
      simp [hlen]
    · refine ⟨by simp, by simp only; omega, ?_⟩
      simp only
      rw [array_append_new]
      simp [hlen]
      omega
    · refine ⟨by simp; omega, fun hab => ?_⟩
      simp only at hab
      omega

/-- One `append` through the header `r` leaves every header of the heap a header
of the heap. -/
theorem goAppend_valid_other (spare : Nat) (h : Heap) (r st : SliceHdr) (v : Value)
    (hv : r.Valid h) (hs : st.Valid h) :
    st.Valid (goAppend spare h r v).1 := by
  obtain ⟨hr1, _, _⟩ := hv
  obtain ⟨hs1, hs2, hs3⟩ := hs
  by_cases hlt : r.len < r.cap
  · simp only [goAppend, hlt, if_true]
    refine ⟨by simpa using hs1, hs2, ?_⟩
    by_cases hab : st.arr = r.arr
    · rw [hab, array_set_same _ _ _ hr1]
      rw [hab] at hs3
      simpa using hs3
    · rw [array_set_other _ _ _ _ hab]
      exact hs3
  · simp only [goAppend, hlt, if_false]
    refine ⟨by simp; omega, hs2, ?_⟩
    rw [array_append_old _ _ _ hs1]
    exact hs3

/-- A run of `append`s through the header `r`: a header out of its reach denotes
what it denoted and stays out of reach, the final header denotes the old sequence
followed by the appended values, and headers of the heap stay headers of the
heap. -/
theorem appendAllH_spec (grow : Nat → Nat) (vs : List Value) (h : Heap) (r st : SliceHdr)
    (hv : r.Valid h) (hc : Covers h r st) :
    Heap.view (appendAllH grow h r vs).1 st = Heap.view h st
    ∧ Heap.view (appendAllH grow h r vs).1 (appendAllH grow h r vs).2 = Heap.view h r ++ vs
    ∧ (appendAllH grow h r vs).2.Valid (appendAllH grow h r vs).1
    ∧ Covers (appendAllH grow h r vs).1 (appendAllH grow h r vs).2 st
    ∧ (st.Valid h → st.Valid (appendAllH grow h r vs).1) := by
  induction vs generalizing h r with
  | nil => simp [appendAllH, hv, hc]
  | cons v vs ih =>
    obtain ⟨h1, h2, h3, h4⟩ := goAppend_spec (grow r.len) h r st v hv hc
    obtain ⟨i1, i2, i3, i4, i5⟩ := ih _ _ h3 h4
    simp only [appendAllH]
    exact ⟨i1.trans h1, by rw [i2, h2]; simp, i3, i4,
      fun hs => i5 (goAppend_valid_other (grow r.len) h r st v hv hs)⟩

theorem view_cons (h : Heap) (s : SliceHdr) (hv : s.Valid h) (hl : s.len ≠ 0) :
    h.view s = (h.array s.arr).getD s.off Value.nil :: h.view (goTail s) := by
  obtain ⟨_, h2, h3⟩ := hv
  have hlt : s.off < (h.array s.arr).length := by omega
  obtain ⟨n, hn⟩ := Nat.exists_eq_succ_of_ne_zero hl
  simp only [Heap.view, goTail, hn, Nat.succ_sub_one]
  rw [List.drop_eq_getElem_cons hlt, List.take_succ_cons]
  simp [List.getD_eq_getElem?_getD, List.getElem?_eq_getElem hlt]

/-- The code of `popFirst` on a slice in memory leaves the heap as it is. -/
theorem popFirstH_heap {T : Type} (ty : TypeArg T) (h : Heap) (s : SliceHdr) :
    (popFirstH ty h s).2.1 = h := by
  unfold popFirstH
  split
  · rfl
  · split
    · split <;> rfl
    · rfl

/-- The code of `popFirst` on a slice in memory does on the denoted sequence what
`popFirst` does on a list. -/
theorem popFirstH_refines {T : Type} (ty : TypeArg T) (h : Heap) (s : SliceHdr)
    (hv : s.Valid h) :
    (popFirstH ty h s).1 = (popFirst ty (h.view s)).1
    ∧ h.view (popFirstH ty h s).2.2 = (popFirst ty (h.view s)).2 := by
  by_cases hl : s.len = 0
  · have hnil : h.view s = [] := by simp [Heap.view, hl]
    simp [popFirstH, hl, hnil, popFirst]
  · rw [view_cons h s hv hl]
    simp only [popFirstH, hl, if_false, popFirst]
    cases ty.assert ((h.array s.arr).getD s.off Value.nil) with
    | none =>
      cases reflectTypeOf (ty.box ty.zeroValue) with
      | none => exact ⟨rfl, view_cons h s hv hl⟩
      | some t => exact ⟨rfl, view_cons h s hv hl⟩
    | some v => exact ⟨rfl, rfl⟩

/-- The header a replayer holds after a successful `popFirst` is out of reach of
the appends when the header before was. -/
theorem covers_goTail (h : Heap) (r st : SliceHdr) (hv : st.Valid h) (hc : Covers h r st)
    (hl : st.len ≠ 0) :
    Covers h r (goTail st) ∧ (goTail st).Valid h := by
  obtain ⟨h1, h2, h3⟩ := hv
  obtain ⟨c1, c2⟩ := hc
  refine ⟨⟨c1, fun hab => ?_⟩, c1, ?_, ?_⟩
  · have := c2 hab
    simp only [goTail]
    omega
  · simp only [goTail]
    omega
  · simp only [goTail]
    omega

section Accumulation

variable {σ : Type}

/-- What the wrapper holds after a read function has run on it: the capture
before, followed by the values of the replies in call order. -/
theorem run_wrapper_data (R : Reader σ) (reader : ReadFunc) (cr : bufferingReaderWrapper σ) :
    (reader.run (bufferingReaderWrapper.call R) cr).2.data
      = cr.data ++ ((reader.trace R.call cr.reader).map (fun p => p.1.toList)).flatten := by
  induction reader generalizing cr with
  | ret e => simp [ReadFunc.run, ReadFunc.trace]
  | call op k ih =>
    simp only [ReadFunc.run, ReadFunc.trace, List.map_cons, List.flatten_cons]
    rw [ih, wrapper_call_data, wrapper_call_reader, wrapper_call_reply, List.append_assoc]

theorem invokeAll_append (R : Reader σ) (reader : ReadFunc) (rds1 rds2 : List σ)
    (spy : ReaderSpy) :
    invokeAll R reader (rds1 ++ rds2) spy
      = invokeAll R reader rds2 (invokeAll R reader rds1 spy) := by
  induction rds1 generalizing spy with
  | nil => rfl
  | cons rd rds ih =>
    show invokeAll R reader (rds ++ rds2) (wrappedReader R reader spy rd).2.2 = _
    rw [ih]
    rfl

theorem wrappedReader_data (R : Reader σ) (reader : ReadFunc) (spy : ReaderSpy) (rd : σ) :
    (wrappedReader R reader spy rd).2.2.data
      = spy.data ++ ((reader.trace R.call rd).map (fun p => p.1.toList)).flatten := by
  simp only [wrappedReader]
  rw [run_wrapper_data]
  rfl

theorem invokeAll_grows (R : Reader σ) (reader : ReadFunc) (rds : List σ) (spy : ReaderSpy) :
    spy.data <+: (invokeAll R reader rds spy).data := by
  induction rds generalizing spy with
  | nil => exact List.prefix_refl _
  | cons rd rds ih =>
    simp only [invokeAll]
    refine List.IsPrefix.trans ?_ (ih _)
    rw [wrappedReader_data]
    exact List.prefix_append _ _

end Accumulation

/-- C17: a persisted sequence is not changed by the core.  The store is handed a
copy of the slice header of the spy, and a replayer holds a copy of the stored
header.  For a header `spy` of the heap: the copy is out of reach of the appends
of the recorder, and so is the header a replayer holds after a successful read;
after any further appends a header out of reach denotes the sequence it denoted,
stays out of reach and stays a header of the heap, while the recorder denotes its
old capture followed by the appended values; and a read of a replayer leaves the
heap as it is and does on the denoted sequence what `popFirst` does on a list.  So
a replayer made from the stored header at any later time serves the whole stored
sequence: whenever the store returns a sequence under the encoded key, `GetKey`
returns a new replayer over all of it. -/
theorem persisted_sequence_unchanged (grow : Nat → Nat) (h : Heap) (spy : SliceHdr)
    (hv : spy.Valid h) :
    Covers h spy spy
    ∧ (∀ st : SliceHdr, st.Valid h → Covers h spy st → st.len ≠ 0 →
        Covers h spy (goTail st) ∧ (goTail st).Valid h)
    ∧ (∀ (st : SliceHdr) (vs : List Value), Covers h spy st →
        Heap.view (appendAllH grow h spy vs).1 st = Heap.view h st
        ∧ Heap.view (appendAllH grow h spy vs).1 (appendAllH grow h spy vs).2
            = Heap.view h spy ++ vs
        ∧ (appendAllH grow h spy vs).2.Valid (appendAllH grow h spy vs).1
        ∧ Covers (appendAllH grow h spy vs).1 (appendAllH grow h spy vs).2 st
        ∧ (st.Valid h → st.Valid (appendAllH grow h spy vs).1))
    ∧ (∀ (T : Type) (ty : TypeArg T) (h2 : Heap) (r : SliceHdr),
        (popFirstH ty h2 r).2.1 = h2
        ∧ (r.Valid h2 →
            (popFirstH ty h2 r).1 = (popFirst ty (h2.view r)).1
            ∧ h2.view (popFirstH ty h2 r).2.2 = (popFirst ty (h2.view r)).2))
    ∧ (∀ (S : Type) (D : Deps S) (c : Cache S) (key : Value) (ek : List Nat)
        (s : List Value), D.gobEncode key = (none, ek) →
        (D.store.Get ek c.cache).1 = (Value.slice (some s), true) →
        (c.GetKey D key).1 = (some ⟨s⟩, true, none)) := by
  refine ⟨⟨hv.1, fun _ => le_refl _⟩,
   fun st hs hc hl => covers_goTail h spy st hs hc hl,
   fun st vs hc => appendAllH_spec grow vs h spy st hv hc,
   fun _ ty h2 r => ⟨popFirstH_heap ty h2 r, fun hr => popFirstH_refines ty h2 r hr⟩,
   fun S D c key ek s henc hget => ?_⟩
  have hk : Cache.encodeKey D key = (some ek, none) := by
    simp [Cache.encodeKey, henc]
  simp [Cache.GetKey, hk, hget, tySlice]

/-- C17 at a capture "foo" that is stored and then extended by `7`, once with a
full backing array (the append reallocates) and once with a free slot (the append
writes in place): the stored header denotes "foo" before and after. -/
theorem persisted_sequence_unchanged_witness :
    (Heap.view (appendAllH (fun n => n) [[Value.string "foo"]] ⟨0, 0, 1, 1⟩
          [Value.int64 7]).1 ⟨0, 0, 1, 1⟩ = [Value.string "foo"]
      ∧ Heap.view (appendAllH (fun n => n) [[Value.string "foo"]] ⟨0, 0, 1, 1⟩
          [Value.int64 7]).1
          (appendAllH (fun n => n) [[Value.string "foo"]] ⟨0, 0, 1, 1⟩ [Value.int64 7]).2
        = [Value.string "foo", Value.int64 7])
    ∧ (Heap.view (appendAllH (fun n => n) [[Value.string "foo", Value.nil]] ⟨0, 0, 1, 2⟩
          [Value.int64 7]).1 ⟨0, 0, 1, 2⟩ = [Value.string "foo"]
      ∧ Heap.view (appendAllH (fun n => n) [[Value.string "foo", Value.nil]] ⟨0, 0, 1, 2⟩
          [Value.int64 7]).1
          (appendAllH (fun n => n) [[Value.string "foo", Value.nil]] ⟨0, 0, 1, 2⟩
            [Value.int64 7]).2
        = [Value.string "foo", Value.int64 7]) :=
  ⟨⟨((persisted_sequence_unchanged (fun n => n) [[Value.string "foo"]] ⟨0, 0, 1, 1⟩
        ⟨by decide, by decide, by decide⟩).2.2.1 ⟨0, 0, 1, 1⟩ [Value.int64 7]
        ⟨by decide, fun _ => by decide⟩).1,
    ((persisted_sequence_unchanged (fun n => n) [[Value.string "foo"]] ⟨0, 0, 1, 1⟩
        ⟨by decide, by decide, by decide⟩).2.2.1 ⟨0, 0, 1, 1⟩ [Value.int64 7]
        ⟨by decide, fun _ => by decide⟩).2.1⟩,
   ⟨((persisted_sequence_unchanged (fun n => n) [[Value.string "foo", Value.nil]] ⟨0, 0, 1, 2⟩
        ⟨by decide, by decide, by decide⟩).2.2.1 ⟨0, 0, 1, 2⟩ [Value.int64 7]
        ⟨by decide, fun _ => by decide⟩).1,
    ((persisted_sequence_unchanged (fun n => n) [[Value.string "foo", Value.nil]] ⟨0, 0, 1, 2⟩
        ⟨by decide, by decide, by decide⟩).2.2.1 ⟨0, 0, 1, 2⟩ [Value.int64 7]
        ⟨by decide, fun _ => by decide⟩).2.1⟩⟩

/-- C18: one spy accumulates over the invocations of its wrapped read function.
An invocation wraps the decoder it is given in a wrapper that starts from the
capture of the spy; after it the capture is the capture before followed by the
values the decoder returned during the invocation, in call order; so after one
more invocation the capture is that of the invocations before followed by the
values of the last, it never gets shorter, and the capture after some
invocations is a prefix of the capture after any further ones. -/
theorem spy_accumulates {σ : Type} (R : Reader σ) (reader : ReadFunc) (spy : ReaderSpy) :
    (∀ rd : σ, (spy.wrapReader rd).data = spy.data ∧ (spy.wrapReader rd).reader = rd)
    ∧ (∀ rd : σ, (wrappedReader R reader spy rd).2.2.data
        = spy.data ++ ((reader.trace R.call rd).map (fun p => p.1.toList)).flatten)
    ∧ (∀ (rds : List σ) (rd : σ), (invokeAll R reader (rds ++ [rd]) spy).data
        = (invokeAll R reader rds spy).data
          ++ ((reader.trace R.call rd).map (fun p => p.1.toList)).flatten)
    ∧ (∀ rds1 rds2 : List σ, (invokeAll R reader rds1 spy).data
        <+: (invokeAll R reader (rds1 ++ rds2) spy).data)
    ∧ (∀ rds1 rds2 : List σ, (invokeAll R reader rds1 spy).data.length
        ≤ (invokeAll R reader (rds1 ++ rds2) spy).data.length) := by
  refine ⟨fun rd => ⟨rfl, rfl⟩, fun rd => wrappedReader_data R reader spy rd,
    fun rds rd => ?_, fun rds1 rds2 => ?_, fun rds1 rds2 => ?_⟩
  · rw [invokeAll_append]
    exact wrappedReader_data R reader _ rd
  · rw [invokeAll_append]
    exact invokeAll_grows R reader rds2 _
  · rw [invokeAll_append]
    exact (invokeAll_grows R reader rds2 _).length_le

/-! ## Lemmas for failed calls during capture -/

/-- The value a typed operation other than `ReadReply` returns on a decoder has
the result type of the operation as its dynamic type. -/
theorem call_reply_type {σ : Type} (R : Reader σ) (op : Op) (s : σ) (t : GoType) (z : Value)
    (hop : op.expected = some t) (hne : op ≠ Op.ReadReply)
    (hz : (R.call op s).1.1 = some z) :
    reflectTypeOf z = some t := by
  cases op <;> simp [Op.expected] at hop <;> subst hop <;>
    first
    | exact absurd rfl hne
    | (simp only [Reader.call, TypeArg.reply, Option.some.injEq] at hz
       rw [← hz]
       rfl)

/-- The replayer serves a value that a value-yielding operation returned on a
decoder, and that is not the nil interface, with no error, whatever error came
with it. -/
theorem replay_returned_value {σ : Type} (R : Reader σ) (op : Op) (s : σ) (z : Value)
    (rest : List Value) (hy : op.yieldsValue = true)
    (hz : (R.call op s).1.1 = some z) (hn : z ≠ Value.nil) :
    ReaderReplayer.call op ⟨z :: rest⟩ = (Outcome.ret (some z, none), ⟨rest⟩) := by
  by_cases hr : op = Op.ReadReply
  · subst hr
    exact call_reply_some z rest hn
  · obtain ⟨t, ht⟩ := Option.isSome_iff_exists.mp hy
    exact call_match op t z rest ht (call_reply_type R op s t z ht hr hz)

/-! ## The claims, concluded -/

/-- C21: errors seen during capture are not reproduced on replay.  When a
value-yielding call fails on the decoder with the value `z` and the error `err`,
the wrapper returns `z` and `err` and captures `z`; the same operation on a
replayer over the capture returns `z` with no error, provided `z` is not the nil
interface; and a decoder that returns `z` with no error leaves the same capture,
so the replay cannot tell the two apart. -/
theorem capture_errors_not_replayed {σ : Type} (R : Reader σ) (op : Op) (s : σ)
    (z : Value) (err : String) (hy : op.yieldsValue = true)
    (hfail : (R.call op s).1 = (some z, some err)) (hn : z ≠ Value.nil) :
    (bufferingReaderWrapper.call R op ⟨s, []⟩).1 = (some z, some err)
    ∧ (bufferingReaderWrapper.call R op ⟨s, []⟩).2.data = [z]
    ∧ ReaderReplayer.call op ⟨(bufferingReaderWrapper.call R op ⟨s, []⟩).2.data⟩
        = (Outcome.ret (some z, none), ⟨[]⟩)
    ∧ (∀ (τ : Type) (R2 : Reader τ) (s2 : τ), (R2.call op s2).1 = (some z, none) →
        (bufferingReaderWrapper.call R2 op ⟨s2, []⟩).2.data
          = (bufferingReaderWrapper.call R op ⟨s, []⟩).2.data) := by
  have hz : (R.call op s).1.1 = some z := by rw [hfail]
  have hd : (bufferingReaderWrapper.call R op ⟨s, []⟩).2.data = [z] := by
    rw [wrapper_call_data]
    simp [hz]
  refine ⟨?_, hd, ?_, fun τ R2 s2 h2 => ?_⟩
  · rw [wrapper_call_reply]
    exact hfail
  · rw [hd]
    exact replay_returned_value R op s z [] hy hz hn
  · rw [hd, wrapper_call_data]
    simp [h2]

/-- C21 at `ReadInt` on the decoder whose calls all fail with "EOF": the wrapper
returns 0 and the error, the replayer returns 0 and no error. -/
theorem capture_errors_not_replayed_witness :
    (bufferingReaderWrapper.call failingReader Op.ReadInt ⟨(), []⟩).1
        = (some (Value.int64 0), some "EOF")
    ∧ (bufferingReaderWrapper.call failingReader Op.ReadInt ⟨(), []⟩).2.data = [Value.int64 0]
    ∧ ReaderReplayer.call Op.ReadInt
          ⟨(bufferingReaderWrapper.call failingReader Op.ReadInt ⟨(), []⟩).2.data⟩
        = (Outcome.ret (some (Value.int64 0), none), ⟨[]⟩)
    ∧ (∀ (τ : Type) (R2 : Reader τ) (s2 : τ),
        (R2.call Op.ReadInt s2).1 = (some (Value.int64 0), none) →
        (bufferingReaderWrapper.call R2 Op.ReadInt ⟨s2, []⟩).2.data
          = (bufferingReaderWrapper.call failingReader Op.ReadInt ⟨(), []⟩).2.data) :=
  capture_errors_not_replayed failingReader Op.ReadInt () (Value.int64 0) "EOF" rfl rfl
    (fun h => Value.noConfusion h)

/-! ## Lemmas on byte slices in memory -/

/-- After `Peek` the capture reads as the elements held before, read in the
present state of the decoder, followed by the bytes returned; when the decoder
has left the bytes of the elements held before as they were, this is the capture
before followed by the returned value, as in the model by content. -/
theorem mem_Peek_capture {σ : Type} (R : Mem.Reader σ) (cr : Mem.bufferingReaderWrapper σ)
    (n : Int) :
    Mem.capture R (Mem.Peek R cr n).2
      = cr.data.map (Mem.Item.read (R.heap (R.Peek n cr.reader).2))
        ++ [Value.bytes (Mem.readBytes (R.heap (R.Peek n cr.reader).2) (R.Peek n cr.reader).1.1)]
    ∧ (cr.data.map (Mem.Item.read (R.heap (R.Peek n cr.reader).2)) = Mem.capture R cr →
        Mem.capture R (Mem.Peek R cr n).2
          = Mem.capture R cr
            ++ [Value.bytes
                (Mem.readBytes (R.heap (R.Peek n cr.reader).2) (R.Peek n cr.reader).1.1)]) := by
  have h : Mem.capture R (Mem.Peek R cr n).2
      = cr.data.map (Mem.Item.read (R.heap (R.Peek n cr.reader).2))
        ++ [Value.bytes
            (Mem.readBytes (R.heap (R.Peek n cr.reader).2) (R.Peek n cr.reader).1.1)] := by
    simp [Mem.capture, Mem.Peek, Mem.appendData, Mem.Item.read]
  exact ⟨h, fun hs => by rw [h, hs]⟩

/-- The same for `ReadLine`. -/
theorem mem_ReadLine_capture {σ : Type} (R : Mem.Reader σ)
    (cr : Mem.bufferingReaderWrapper σ) :
    Mem.capture R (Mem.ReadLine R cr).2
      = cr.data.map (Mem.Item.read (R.heap (R.ReadLine cr.reader).2))
        ++ [Value.bytes
            (Mem.readBytes (R.heap (R.ReadLine cr.reader).2) (R.ReadLine cr.reader).1.1)]
    ∧ (cr.data.map (Mem.Item.read (R.heap (R.ReadLine cr.reader).2)) = Mem.capture R cr →
        Mem.capture R (Mem.ReadLine R cr).2
          = Mem.capture R cr
            ++ [Value.bytes
                (Mem.readBytes (R.heap (R.ReadLine cr.reader).2) (R.ReadLine cr.reader).1.1)]) := by
  have h : Mem.capture R (Mem.ReadLine R cr).2
      = cr.data.map (Mem.Item.read (R.heap (R.ReadLine cr.reader).2))
        ++ [Value.bytes
            (Mem.readBytes (R.heap (R.ReadLine cr.reader).2) (R.ReadLine cr.reader).1.1)] := by
    simp [Mem.capture, Mem.ReadLine, Mem.appendData, Mem.Item.read]
  exact ⟨h, fun hs => by rw [h, hs]⟩

/-- C2, at an input where the code departs from it: a decoder that hands out its
one buffer.  Through the wrapper `Peek(2)` returns "ab" with no error and
`ReadLine` returns "xy" with no error.  The wrapper has appended the two headers
without copying the bytes, so the capture reads "xy", "xy"; the same two
operations on a replayer over the capture return "xy" and "xy", the first not
being the "ab" that the recorded call returned. -/
theorem record_replay_reused_buffer :
    Mem.readBytes (Mem.reusingReader.heap (Mem.Peek Mem.reusingReader Mem.reuseStart 2).2.reader)
        (Mem.Peek Mem.reusingReader Mem.reuseStart 2).1.1 = some [97, 98]
    ∧ (Mem.Peek Mem.reusingReader Mem.reuseStart 2).1.2 = none
    ∧ Mem.capture Mem.reusingReader (Mem.Peek Mem.reusingReader Mem.reuseStart 2).2
        = [Value.bytes (some [97, 98])]
    ∧ Mem.readBytes
        (Mem.reusingReader.heap
          (Mem.ReadLine Mem.reusingReader
            (Mem.Peek Mem.reusingReader Mem.reuseStart 2).2).2.reader)
        (Mem.ReadLine Mem.reusingReader
          (Mem.Peek Mem.reusingReader Mem.reuseStart 2).2).1.1 = some [120, 121]
    ∧ (Mem.ReadLine Mem.reusingReader
          (Mem.Peek Mem.reusingReader Mem.reuseStart 2).2).1.2 = none
    ∧ Mem.capture Mem.reusingReader
          (Mem.ReadLine Mem.reusingReader (Mem.Peek Mem.reusingReader Mem.reuseStart 2).2).2
        = [Value.bytes (some [120, 121]), Value.bytes (some [120, 121])]
    ∧ runReplayer [Op.Peek 2, Op.ReadLine]
          ⟨Mem.capture Mem.reusingReader
            (Mem.ReadLine Mem.reusingReader
              (Mem.Peek Mem.reusingReader Mem.reuseStart 2).2).2⟩
        = ([Outcome.ret (some (Value.bytes (some [120, 121])), none),
            Outcome.ret (some (Value.bytes (some [120, 121])), none)], ⟨[]⟩) :=
  ⟨rfl, rfl, rfl, rfl, rfl, rfl, rfl⟩

end RedisCache
